import Mathlib

/-!
# Verification of the git-go object store, index and commit pipeline

A shallow embedding of `cmd/mygit/main.go`.  Go byte strings are modelled as
`List Nat` (one `Nat` per byte), the filesystem as an association list from
path (byte string) to file content.  zlib compression is a lossless codec and
is modelled by storing the uncompressed payload; all claims are about the
decompressed frames.  SHA-1 is implemented in full over `Nat` arithmetic
modulo `2^32`.
-/

set_option maxRecDepth 20000

abbrev Bytes := List Nat

/-- ASCII bytes of a Lean string literal (used only for ASCII literals). -/
def str (s : String) : Bytes := s.toList.map Char.toNat

/-- Decimal digits of a positive number, least significant first.  The first
argument is structural fuel; `natDec` passes `n` itself, which is enough
since the value shrinks by a factor of ten per step. -/
def natDecAux (fuel n : Nat) : Bytes :=
  match fuel with
  | 0 => []
  | fuel + 1 => if n = 0 then [] else (48 + n % 10) :: natDecAux fuel (n / 10)

/-- ASCII decimal rendering of a natural number, as Go's `%d`. -/
def natDec (n : Nat) : Bytes := if n = 0 then [48] else (natDecAux n n).reverse

/-! ## Hex encoding / decoding (Go `encoding/hex`) -/

/-- Lower-case hex digit for a nibble, as Go `hex.EncodeToString` emits. -/
def hexDigit (n : Nat) : Nat := if n < 10 then n + 48 else n + 87

/-- `hex.EncodeToString`: two lower-case hex characters per byte. -/
def hexEncode (bs : Bytes) : Bytes :=
  bs.flatMap (fun b => [hexDigit (b / 16), hexDigit (b % 16)])

/-- Value of one hex character (`0-9`, `a-f`, `A-F`), or `none` (Go
`hex.Decode` error on an invalid byte). -/
def hexVal (c : Nat) : Option Nat :=
  if 48 ≤ c ∧ c ≤ 57 then some (c - 48)
  else if 97 ≤ c ∧ c ≤ 102 then some (c - 87)
  else if 65 ≤ c ∧ c ≤ 70 then some (c - 55)
  else none

/-- `hex.Decode` on an even-length list of hex characters. -/
def hexDecode : Bytes → Option Bytes
  | [] => some []
  | c1 :: c2 :: rest =>
    match hexVal c1, hexVal c2, hexDecode rest with
    | some h, some l, some bs => some ((16 * h + l) :: bs)
    | _, _, _ => none
  | [_] => none

/-- `hexToBytes` from the source: rejects odd length, then `hex.Decode`. -/
def hexToBytes (s : Bytes) : Option Bytes :=
  if s.length % 2 ≠ 0 then none else hexDecode s

/-! ## SHA-1 (Go `crypto/sha1`), over `Nat` modulo `2^32` -/

def M32 : Nat := 4294967296

/-- Left rotation of a 32-bit word. -/
def rotl (n x : Nat) : Nat := ((x <<< n) % M32) ||| (x >>> (32 - n))

/-- Big-endian 4-byte group to a 32-bit word. -/
def wordOfBytes : Bytes → Nat
  | [a, b, c, d] => ((a * 256 + b) * 256 + c) * 256 + d
  | _ => 0

/-- 32-bit word to 4 big-endian bytes. -/
def bytesOfWord (w : Nat) : Bytes :=
  [w / 16777216 % 256, w / 65536 % 256, w / 256 % 256, w % 256]

/-- Split a list into groups of `k` elements (the input length is a multiple
of `k > 0` wherever this is used).  Structural fuel; callers pass the list
length, which bounds the number of groups. -/
def groups (k fuel : Nat) (l : List Nat) : List (List Nat) :=
  match fuel with
  | 0 => []
  | fuel + 1 => if l = [] then [] else l.take k :: groups k fuel (l.drop k)

/-- SHA-1 message padding: `0x80`, zeros to 56 mod 64, 8-byte big-endian
bit length. -/
def sha1pad (msg : Bytes) : Bytes :=
  let len := msg.length
  let k := (119 - len % 64) % 64
  let bitlen := 8 * len
  msg ++ [128] ++ List.replicate k 0 ++
    [bitlen / 72057594037927936 % 256, bitlen / 281474976710656 % 256,
     bitlen / 1099511627776 % 256, bitlen / 4294967296 % 256,
     bitlen / 16777216 % 256, bitlen / 65536 % 256,
     bitlen / 256 % 256, bitlen % 256]

/-- Word-expansion step: prepend `rotl 1 (w3 ^^^ w8 ^^^ w14 ^^^ w16)` to the
reversed word list, `n` times. -/
def sha1extend : Nat → List Nat → List Nat
  | 0, acc => acc
  | n + 1, acc =>
    let w := rotl 1 (acc.getD 2 0 ^^^ acc.getD 7 0 ^^^ acc.getD 13 0 ^^^ acc.getD 15 0)
    sha1extend n (w :: acc)

/-- Round function and constant for round `i`. -/
def sha1f (i b c d : Nat) : Nat × Nat :=
  if i < 20 then ((b &&& c) ||| ((b ^^^ 4294967295) &&& d), 1518500249)
  else if i < 40 then (b ^^^ c ^^^ d, 1859775393)
  else if i < 60 then ((b &&& c) ||| (b &&& d) ||| (c &&& d), 2400959708)
  else (b ^^^ c ^^^ d, 3395469782)

/-- One SHA-1 round. -/
def sha1round (st : Nat × Nat × Nat × Nat × Nat) (iw : Nat × Nat) :
    Nat × Nat × Nat × Nat × Nat :=
  let (a, b, c, d, e) := st
  let (i, w) := iw
  let (f, k) := sha1f i b c d
  let temp := (rotl 5 a + f + e + k + w) % M32
  (temp, a, rotl 30 b, c, d)

/-- Process one 64-byte chunk. -/
def sha1chunk (h : Nat × Nat × Nat × Nat × Nat) (chunk : Bytes) :
    Nat × Nat × Nat × Nat × Nat :=
  let ws16 := (groups 4 chunk.length chunk).map wordOfBytes
  let ws := (sha1extend 64 ws16.reverse).reverse
  let (h0, h1, h2, h3, h4) := h
  let fin := ws.enum.foldl sha1round (h0, h1, h2, h3, h4)
  let (a, b, c, d, e) := fin
  ((h0 + a) % M32, (h1 + b) % M32, (h2 + c) % M32, (h3 + d) % M32, (h4 + e) % M32)

/-- SHA-1 digest: 20 bytes. -/
def sha1 (msg : Bytes) : Bytes :=
  let chunks := groups 64 (sha1pad msg).length (sha1pad msg)
  let fin := chunks.foldl sha1chunk (1732584193, 4023233417, 2562383102, 271733878, 3285377520)
  bytesOfWord fin.1 ++ bytesOfWord fin.2.1 ++ bytesOfWord fin.2.2.1 ++
    bytesOfWord fin.2.2.2.1 ++ bytesOfWord fin.2.2.2.2

/-- `fmt.Sprintf("%x", sha1.Sum(data))`: 40 lower-case hex characters. -/
def sha1Hex (msg : Bytes) : Bytes := hexEncode (sha1 msg)

/-! ## Filesystem model

An association list from path to file content (the content of an object file
is its decompressed payload; zlib is a lossless codec).  `FS.write` is also
the Go map-assignment on `map[string]string` values, which has the same
overwrite-or-insert semantics. -/

abbrev FS := List (Bytes × Bytes)

def FS.read : FS → Bytes → Option Bytes
  | [], _ => none
  | (q, v) :: fs, p => if q = p then some v else FS.read fs p

def FS.write : FS → Bytes → Bytes → FS
  | [], p, v => [(p, v)]
  | (q, w) :: fs, p, v => if q = p then (p, v) :: fs else (q, w) :: FS.write fs p v

def FS.pathExists (fs : FS) (p : Bytes) : Bool := (fs.read p).isSome

/-- `os.ReadDir`: sorted file names directly under `dir`; `none` when the
directory does not exist (no file under it in the flat model). -/
def FS.readDir (fs : FS) (dir : Bytes) : Option (List Bytes) :=
  let names := fs.filterMap (fun e =>
    if (dir ++ [47]).isPrefixOf e.1 then some (e.1.drop (dir.length + 1)) else none)
  if names = [] then none else some (names.insertionSort (· ≤ ·))

/-- The derived object path `.git/objects/<first 2>/<remaining 38>`. -/
def objPath (hash : Bytes) : Bytes :=
  str ".git/objects/" ++ hash.take 2 ++ [47] ++ hash.drop 2

def headPath : Bytes := str ".git/HEAD"
def indexPath : Bytes := str ".git/index"

/-! ## `hashFile` (blob store) -/

def hashFile (fileContents : Bytes) (fs : FS) : Bytes × FS :=
  let data := str "blob " ++ natDec fileContents.length ++ [0] ++ fileContents
  let hash := sha1Hex data
  if fs.pathExists (objPath hash) then (hash, fs)
  else (hash, fs.write (objPath hash) data)

/-! ## `getFullHashFromAbbreviated` -/

inductive GErr | tooShort | readDirError | notResolved
deriving DecidableEq

def getFullHashFromAbbreviated (ab : Bytes) (fs : FS) : Except GErr Bytes :=
  if ab.length < 7 then .error .tooShort else
  match fs.readDir (str ".git/objects/" ++ ab.take 2) with
  | none => .error .readDirError
  | some files =>
    match files.find? (fun f => (ab.drop 2).isPrefixOf f) with
    | some f => .ok f
    | none => .error .notResolved

/-! ## Index encoding (`writeIndex`) and decoding (`readIndex`) -/

/-- The bytes `writeIndex` serializes for entries in iteration order; `none`
is the `hexToBytes` error. -/
def writeIndexBytes : List (Bytes × Bytes) → Option Bytes
  | [] => some []
  | (path, hash) :: rest =>
    match hexToBytes hash, writeIndexBytes rest with
    | some hb, some bs => some (str "100644 " ++ path ++ [0] ++ hb ++ bs)
    | _, _ => none

/-- The `readIndex` parse loop.  `none` models the Go runtime panic: when
exactly 6 bytes remain the guard `i+6 > len` passes, `i += 7` makes
`i = len+1`, and slicing `content[i:]` is out of range.  The first argument
is structural fuel; `readIndexGo` passes the content length, which is ample
because every iteration consumes at least 28 bytes (the fuel-exhausted
branch is unreachable then, see `readIndexLoop_fuel`). -/
def readIndexLoop (fuel : Nat) (content : Bytes) (acc : List (Bytes × Bytes)) :
    Option (List (Bytes × Bytes)) :=
  match fuel with
  | 0 => some acc
  | fuel + 1 =>
    if content.length < 6 then some acc
    else if content.length = 6 then none
    else
      let rest := content.drop 7
      match rest.findIdx? (· == 0) with
      | none => some acc
      | some k =>
        let path := rest.take k
        let rest2 := rest.drop (k + 1)
        if rest2.length < 20 then some acc
        else readIndexLoop fuel (rest2.drop 20) (FS.write acc path (hexEncode (rest2.take 20)))

def readIndexGo (content : Bytes) : Option (List (Bytes × Bytes)) :=
  readIndexLoop content.length content []

/-- `readIndex`: an absent index file is the empty map. -/
def readIndexFile (file : Option Bytes) : Option (List (Bytes × Bytes)) :=
  match file with
  | none => some []
  | some content => readIndexGo content

/-! ## `writeTreeFromIndex` -/

inductive TErr | badEntry | badHex
deriving DecidableEq

/-- The rendered entry string `"100644 <path>\x00<hex hash>"`. -/
def renderEntry (e : Bytes × Bytes) : Bytes := str "100644 " ++ e.1 ++ [0] ++ e.2

/-- `strings.SplitN(s, "\x00", 2)` when a null is present. -/
def splitAtZero (l : Bytes) : Option (Bytes × Bytes) :=
  match l.findIdx? (· == 0) with
  | none => none
  | some k => some (l.take k, l.drop (k + 1))

/-- The loop turning sorted rendered entries into the tree body. -/
def treeBodyLoop : List Bytes → Except TErr Bytes
  | [] => .ok []
  | entry :: rest =>
    match splitAtZero entry with
    | none => .error .badEntry
    | some (header, hashStr) =>
      match hexToBytes hashStr with
      | none => .error .badHex
      | some hb =>
        match treeBodyLoop rest with
        | .error e => .error e
        | .ok tail => .ok (header ++ hb ++ tail)

/-- The framed byte form `"tree <len>\x00<body>"`. -/
def treeFrame (body : Bytes) : Bytes := str "tree " ++ natDec body.length ++ [0] ++ body

def writeTreeFromIndex (indexEntries : List (Bytes × Bytes)) (fs : FS) :
    Except TErr (Bytes × FS) :=
  let entries := List.insertionSort (· ≤ ·) (indexEntries.map renderEntry)
  match treeBodyLoop entries with
  | .error e => .error e
  | .ok body =>
    let treeHash := sha1Hex (treeFrame body)
    .ok (treeHash, fs.write (objPath treeHash) (treeFrame body))

/-! ## `cat-file -p` -/

inductive CatErr | openError | invalidFormat
deriving DecidableEq

/-- The cat-file case of `main` (the Go code slices `object[:2]`/`object[2:]`,
so it is only invoked with `object.length ≥ 2`). -/
def catFile (object : Bytes) (fs : FS) : Except CatErr Bytes :=
  let objectPath := str ".git/objects/" ++ object.take 2 ++ [47] ++ object.drop 2
  match fs.read objectPath with
  | none => .error .openError
  | some data =>
    match data.findIdx? (· == 0) with
    | none => .error .invalidFormat
    | some nullIndex => .ok (data.drop (nullIndex + 1))

/-! ## The `add` command -/

structure AddState where
  entries : List (Bytes × Bytes)
  fs : FS
  stdout : List Bytes
  stderr : List Bytes
deriving DecidableEq

/-- `addFileToIndex`: read the file, store it as a blob, record the entry,
print `Added <path>`.  The error is the `FileReadError` for `filePath`. -/
def addFileToIndex (st : AddState) (filePath : Bytes) : Except Bytes AddState :=
  match st.fs.read filePath with
  | none => .error (str "error reading file " ++ filePath)
  | some contents =>
    let (hash, fs') := hashFile contents st.fs
    .ok { st with entries := FS.write st.entries filePath hash, fs := fs',
                  stdout := st.stdout ++ [str "Added " ++ filePath] }

/-- `filepath.Walk` order over the flat filesystem: all paths not under
`.git`, lexically sorted. -/
def walkPaths (fs : FS) : List Bytes :=
  List.insertionSort (· ≤ ·)
    ((fs.map (·.1)).filter
      (fun p => (!(str ".git/").isPrefixOf p) && (p ≠ str ".git")))

/-- The `add .` walk: an unreadable file aborts the walk (exit 1). -/
def walkAdd : AddState → List Bytes → Except AddState AddState
  | st, [] => .ok st
  | st, p :: rest =>
    match addFileToIndex st p with
    | .ok st' => walkAdd st' rest
    | .error e => .error { st with stderr := st.stderr ++ [str "Error walking directory: " ++ e] }

/-- The loop over named patterns: `"."` walks (aborting on error); any other
pattern that fails only appends a message to stderr and the loop continues. -/
def addPatterns : AddState → List Bytes → Except AddState AddState
  | st, [] => .ok st
  | st, pat :: rest =>
    if pat = str "." then
      match walkAdd st (walkPaths st.fs) with
      | .error st' => .error st'
      | .ok st' => addPatterns st' rest
    else
      match addFileToIndex st pat with
      | .ok st' => addPatterns st' rest
      | .error e =>
        addPatterns { st with stderr := st.stderr ++ [str "Error adding file: " ++ e] } rest

inductive AddOut
  | panic
  | errExit (st : AddState)
  | ok (st : AddState)
deriving DecidableEq

def addCmd (fs : FS) (filesToAdd : List Bytes) : AddOut :=
  match readIndexFile (fs.read indexPath) with
  | none => .panic
  | some indexEntries =>
    if filesToAdd = [] then .errExit ⟨indexEntries, fs, [], [str "usage"]⟩
    else
      match addPatterns ⟨indexEntries, fs, [], []⟩ filesToAdd with
      | .error st => .errExit st
      | .ok st =>
        match writeIndexBytes st.entries with
        | none => .errExit { st with stderr := st.stderr ++ [str "Error writing index"] }
        | some b => .ok { st with fs := st.fs.write indexPath b }

/-! ## The `commit` command -/

def isSpaceByte (c : Nat) : Bool :=
  c == 32 || c == 9 || c == 10 || c == 13 || c == 11 || c == 12

/-- `strings.TrimSpace` (all inputs in this program are ASCII). -/
def trimSpace (l : Bytes) : Bytes :=
  ((l.dropWhile isSpaceByte).reverse.dropWhile isSpaceByte).reverse

/-- `extractTreeHashFromCommit`: first line of the data, `"tree "` stripped. -/
def extractTreeHashFromCommit (commitData : Bytes) : Bytes :=
  let line0 := commitData.takeWhile (· != 10)
  if (str "tree ").isPrefixOf line0 then line0.drop 5 else []

/-- The `readTreeEntries` scan.  `none` models the Go panic from slicing
`content[i : i+nullIndex+21]` past the end of the buffer.  Structural fuel;
callers pass the content length, sufficient since every iteration consumes
at least 21 bytes. -/
def parseTreeLoop (fuel : Nat) (content : Bytes) : Option (List Bytes) :=
  match fuel with
  | 0 => some []
  | fuel + 1 =>
    if content = [] then some []
    else
      match content.findIdx? (· == 0) with
      | none => some []
      | some k =>
        if content.length < k + 21 then none
        else
          match parseTreeLoop fuel (content.drop (k + 21)) with
          | none => none
          | some es => some (content.take (k + 21) :: es)

/-- `readTreeEntries`.  `none` is a panic: either from the scan, or from Go's
`treeHash[:2]` when the hash is a single character. -/
def readTreeEntries (treeHash : Bytes) (fs : FS) : Option (List Bytes) :=
  if treeHash = [] then some []
  else if treeHash.length < 2 then none
  else
    match fs.read (objPath treeHash) with
    | none => some []
    | some data =>
      match data.findIdx? (· == 0) with
      | none => some []
      | some n => parseTreeLoop (data.drop (n + 1)).length (data.drop (n + 1))

/-- `strings.SplitN(s, " ", 2)` when a space is present. -/
def splitAtSpace (l : Bytes) : Option (Bytes × Bytes) :=
  match l.findIdx? (· == 32) with
  | none => none
  | some k => some (l.take k, l.drop (k + 1))

/-- Build the path→hash map of one tree's entry list.  `none` models the Go
panic on `parts[1]` when an entry holds no null byte. -/
def treeMapLoop : List Bytes → List (Bytes × Bytes) → Option (List (Bytes × Bytes))
  | [], m => some m
  | entry :: rest, m =>
    match splitAtZero entry with
    | none => none
    | some (_, h) =>
      match splitAtSpace ((splitAtZero entry).getD ([], [])).1 with
      | none => treeMapLoop rest m
      | some (_, path) => treeMapLoop rest (FS.write m path h)

def compareTrees (oldTreeHash newTreeHash : Bytes) (fs : FS) : Option (Nat × Nat) :=
  match readTreeEntries oldTreeHash fs, readTreeEntries newTreeHash fs with
  | some oldE, some newE =>
    match treeMapLoop oldE [], treeMapLoop newE [] with
    | some oldPaths, some newPaths =>
      let insDel := newPaths.foldl
        (fun (p : Nat × Nat) e =>
          match FS.read oldPaths e.1 with
          | none => (p.1 + 1, p.2)
          | some oh => if oh = e.2 then p else (p.1 + 1, p.2 + 1)) (0, 0)
      let del := oldPaths.foldl
        (fun d e =>
          match FS.read newPaths e.1 with
          | none => d + 1
          | some _ => d) insDel.2
      some (insDel.1, del)
    | _, _ => none
  | _, _ => none

/-- The commit body exactly as `main` composes it. -/
def commitBody (treeHash parentHash name email : Bytes) (ts : Nat) (tz msg : Bytes) : Bytes :=
  str "tree " ++ treeHash ++ [10] ++
  (if parentHash ≠ [] then str "parent " ++ parentHash ++ [10] else []) ++
  str "author " ++ name ++ str " <" ++ email ++ str "> " ++ natDec ts ++ [32] ++ tz ++ [10] ++
  str "committer " ++ name ++ str " <" ++ email ++ str "> " ++ natDec ts ++ [32] ++ tz ++ [10] ++
  [10] ++ msg

/-- The framed byte form `"commit <len>\x00<body>"`. -/
def commitFrame (body : Bytes) : Bytes := str "commit " ++ natDec body.length ++ [0] ++ body

structure CommitOk where
  commitHash : Bytes
  body : Bytes
  treeHash : Bytes
  parentHash : Bytes
  printed : List Bytes
  fs : FS
deriving DecidableEq

inductive CommitOut
  | panic
  | errExit (msg : Bytes)
  | ok (r : CommitOk)
deriving DecidableEq

/-- The commit case of `main`.  User identity, timestamp and timezone are
external collaborators and enter as parameters. -/
def commitCmd (fs : FS) (name email : Bytes) (ts : Nat) (tz msg : Bytes) : CommitOut :=
  if msg = [] then .errExit (str "Please provide a commit message using -m")
  else
    match readIndexFile (fs.read indexPath) with
    | none => .panic
    | some indexEntries =>
      if indexEntries = [] then .errExit (str "No changes staged to commit")
      else
        match writeTreeFromIndex indexEntries fs with
        | .error _ => .errExit (str "Error writing tree from index")
        | .ok (treeHash, fs1) =>
          let parentHash :=
            match fs1.read headPath with
            | none => []
            | some headContent =>
              let headStr := trimSpace headContent
              if (str "ref: ").isPrefixOf headStr then
                match fs1.read (str ".git/" ++ trimSpace (headStr.drop 4)) with
                | none => []
                | some refContent => trimSpace refContent
              else []
          let body := commitBody treeHash parentHash name email ts tz msg
          let commitHash := sha1Hex (commitFrame body)
          let fs2 := fs1.write (objPath commitHash) (commitFrame body)
          let currentBranch :=
            match fs2.read headPath with
            | none => []
            | some hc =>
              let hs := trimSpace hc
              if (str "ref: refs/heads/").isPrefixOf hs then hs.drop 16 else []
          let headerLine :=
            [91] ++ currentBranch ++ [32] ++ commitHash.take 7 ++ str "] " ++ msg
          let summary? : Option Bytes :=
            if parentHash = [] then
              some (natDec indexEntries.length ++ str " insertions(+)")
            else if parentHash.length < 2 then none
            else
              let parentTreeHash :=
                match fs2.read (objPath parentHash) with
                | none => []
                | some d => extractTreeHashFromCommit d
              match compareTrees parentTreeHash treeHash fs2 with
              | none => none
              | some (ins, del) =>
                some (natDec ins ++ str " insertions(+), " ++ natDec del ++ str " deletions(-)")
          match summary? with
          | none => .panic
          | some changesSummary =>
            let printed0 := [headerLine] ++
              (if changesSummary ≠ [] then [changesSummary] else [])
            let (fs3, printed1) :=
              match fs2.read headPath with
              | none => (fs2, printed0)
              | some hc =>
                let hs := trimSpace hc
                if (str "ref: ").isPrefixOf hs then
                  (fs2.write (str ".git/" ++ trimSpace (hs.drop 4)) (commitHash ++ [10]),
                   printed0 ++ [commitHash])
                else (fs2, printed0)
            match writeIndexBytes [] with
            | none => .errExit (str "Error clearing index")
            | some b =>
              .ok { commitHash := commitHash, body := body, treeHash := treeHash,
                    parentHash := parentHash, printed := printed1,
                    fs := fs3.write indexPath b }

/-! ## Observations and concrete scenarios -/

def commitParentOf : CommitOut → Option Bytes
  | .ok r => some r.parentHash
  | _ => none

def commitBodyOf : CommitOut → Option Bytes
  | .ok r => some r.body
  | _ => none

/-- Lower-case hexadecimal character (the alphabet `%x` renders). -/
def isLowerHex (c : Nat) : Bool := (48 ≤ c && c ≤ 57) || (97 ≤ c && c ≤ 102)

/-- A repository with one staged file, as `init` plus `add a.txt` leave it. -/
def fsScenario : FS :=
  let fs0 := FS.write [] headPath (str "ref: refs/heads/main" ++ [10])
  let pr := hashFile (str "hi") fs0
  FS.write pr.2 indexPath ((writeIndexBytes [(str "a.txt", pr.1)]).getD [])

/-- Run a root commit, point HEAD directly at the resulting commit hash
(a detached head), restage the same file, and commit again. -/
def detachScenario : CommitOut :=
  match commitCmd fsScenario (str "A") (str "a@b") 0 (str "+0000") (str "x") with
  | .ok r1 =>
    let fs2 := FS.write (FS.write r1.fs headPath r1.commitHash) indexPath
      ((writeIndexBytes [(str "a.txt", (hashFile (str "hi") []).1)]).getD [])
    commitCmd fs2 (str "A") (str "a@b") 1 (str "+0000") (str "y")
  | _ => .panic

/-- Whether an add invocation completed without `os.Exit(1)`. -/
def addExitOk : AddOut → Bool
  | .ok _ => true
  | _ => false

/-- The final command state of an add invocation, when it did not panic. -/
def addStateOf : AddOut → Option AddState
  | .ok st => some st
  | .errExit st => some st
  | .panic => none

/-- Propositional equality on `Except` results is decidable when both
component types decide equality (needed to evaluate concrete runs). -/
instance {ε α : Type} [DecidableEq ε] [DecidableEq α] : DecidableEq (Except ε α) :=
  fun x y =>
    match x, y with
    | .ok a, .ok b =>
      if h : a = b then isTrue (by rw [h]) else isFalse (fun hc => h (Except.ok.inj hc))
    | .error a, .error b =>
      if h : a = b then isTrue (by rw [h]) else isFalse (fun hc => h (Except.error.inj hc))
    | .ok _, .error _ => isFalse (fun hc => Except.noConfusion hc)
    | .error _, .ok _ => isFalse (fun hc => Except.noConfusion hc)

/-! # Lemmas -/

theorem FS.read_write (fs : FS) (p v q : Bytes) :
    FS.read (FS.write fs p v) q = if p = q then some v else FS.read fs q := by
  induction fs with
  | nil => by_cases h : p = q <;> simp [FS.write, FS.read, h]
  | cons a fs ih =>
    obtain ⟨pk, pv⟩ := a
    by_cases h1 : pk = p
    · subst h1
      by_cases h2 : pk = q <;> simp [FS.write, FS.read, h2]
    · simp only [FS.write, if_neg h1, FS.read]
      by_cases h2 : pk = q
      · have hpq : ¬ p = q := fun hh => h1 (h2.trans hh.symm)
        simp [h2, ih, hpq]
      · simp [h2, ih]

theorem FS.read_write_same (fs : FS) (p v : Bytes) :
    FS.read (FS.write fs p v) p = some v := by
  simp [FS.read_write]

theorem FS.read_write_ne (fs : FS) (p v q : Bytes) (h : p ≠ q) :
    FS.read (FS.write fs p v) q = FS.read fs q := by
  simp [FS.read_write, h]

theorem FS.write_write_same (fs : FS) (p v : Bytes) :
    FS.write (FS.write fs p v) p v = FS.write fs p v := by
  induction fs with
  | nil => simp [FS.write]
  | cons a fs ih =>
    obtain ⟨pk, pv⟩ := a
    by_cases h : pk = p <;> simp [FS.write, h, ih]

theorem FS.write_of_not_mem (fs : FS) (p v : Bytes) (h : p ∉ fs.map Prod.fst) :
    FS.write fs p v = fs ++ [(p, v)] := by
  induction fs with
  | nil => simp [FS.write]
  | cons a fs ih =>
    obtain ⟨pk, pv⟩ := a
    simp only [List.map_cons, List.mem_cons] at h
    push_neg at h
    have h1 : ¬ (pk = p) := fun hh => h.1 hh.symm
    simp [FS.write, h1, ih h.2]

theorem findIdx?_none_of_all (p : Nat → Bool) (xs : Bytes) (i : Nat)
    (h : ∀ c ∈ xs, p c = false) :
    List.findIdx? p xs i = none := by
  induction xs generalizing i with
  | nil => simp [List.findIdx?]
  | cons a l ih =>
    have ha : p a = false := h a (by simp)
    rw [List.findIdx?_cons, ha]
    simp only [Bool.false_eq_true, if_false]
    exact ih _ (fun c hc => h c (List.mem_cons_of_mem _ hc))

theorem findIdx?_zero_append (xs ys : Bytes) (i : Nat)
    (hx : ∀ c ∈ xs, c ≠ 0) :
    List.findIdx? (· == 0) (xs ++ 0 :: ys) i = some (i + xs.length) := by
  induction xs generalizing i with
  | nil => simp [List.findIdx?_cons]
  | cons a l ih =>
    have ha : ((a == (0 : Nat)) : Bool) = false := by
      simp; exact hx a (by simp)
    simp only [List.cons_append, List.findIdx?_cons, ha, if_false]
    rw [ih (i + 1) (fun c hc => hx c (by simp [hc]))]
    simp; omega

theorem findIdx?_append_some (p : Nat → Bool) (xs ys : Bytes) (i k : Nat)
    (h : List.findIdx? p xs i = some k) :
    List.findIdx? p (xs ++ ys) i = some k := by
  induction xs generalizing i with
  | nil => simp [List.findIdx?] at h
  | cons a l ih =>
    by_cases ha : p a
    · simp_all [List.findIdx?_cons]
    · rw [List.findIdx?_cons, if_neg ha] at h
      rw [List.cons_append, List.findIdx?_cons, if_neg ha]
      exact ih _ h

theorem natDecAux_digits (fuel : Nat) : ∀ n, ∀ c ∈ natDecAux fuel n, 48 ≤ c ∧ c ≤ 57 := by
  induction fuel with
  | zero => intro n c hc; simp [natDecAux] at hc
  | succ f ih =>
    intro n c hc
    rw [natDecAux] at hc
    by_cases h : n = 0
    · simp [h] at hc
    · simp [h] at hc
      rcases hc with hc | hc
      · have : n % 10 < 10 := Nat.mod_lt _ (by omega)
        omega
      · exact ih (n / 10) c hc

theorem natDec_digits (n : Nat) : ∀ c ∈ natDec n, 48 ≤ c ∧ c ≤ 57 := by
  intro c hc
  by_cases h : n = 0
  · simp [natDec, h] at hc; omega
  · simp [natDec, h] at hc
    exact natDecAux_digits n n c hc

theorem natDec_ne_nil (n : Nat) : natDec n ≠ [] := by
  by_cases h : n = 0
  · simp [natDec, h]
  · simp only [natDec, h, if_false]
    intro hc
    rw [List.reverse_eq_nil_iff] at hc
    obtain ⟨f, rfl⟩ : ∃ f, n = f + 1 := ⟨n - 1, by omega⟩
    rw [natDecAux] at hc
    simp at hc

theorem hexVal_of_lower (c : Nat) (h : isLowerHex c = true) :
    ∃ v, hexVal c = some v ∧ v < 16 ∧ hexDigit v = c := by
  have h' : (48 ≤ c ∧ c ≤ 57) ∨ (97 ≤ c ∧ c ≤ 102) := by
    unfold isLowerHex at h
    simp at h
    tauto
  unfold hexVal hexDigit
  rcases h' with h' | h'
  · exact ⟨c - 48, by rw [if_pos h'], by omega, by rw [if_pos (by omega)]; omega⟩
  · refine ⟨c - 87, ?_, by omega, by rw [if_neg (by omega)]; omega⟩
    rw [if_neg (by omega), if_pos h']

theorem hexVal_hexDigit (n : Nat) (h : n < 16) : hexVal (hexDigit n) = some n := by
  unfold hexVal hexDigit
  split_ifs <;> first | (simp only [Option.some.injEq]; omega) | omega

theorem hexDigit_isLowerHex (n : Nat) (h : n < 16) : isLowerHex (hexDigit n) = true := by
  unfold isLowerHex hexDigit
  split_ifs <;> simp <;> omega

theorem hexEncode_cons (b : Nat) (bs : Bytes) :
    hexEncode (b :: bs) = hexDigit (b / 16) :: hexDigit (b % 16) :: hexEncode bs := by
  simp [hexEncode]

theorem hexEncode_length (bs : Bytes) : (hexEncode bs).length = 2 * bs.length := by
  induction bs with
  | nil => rfl
  | cons b l ih => rw [hexEncode_cons]; simp [ih]; omega

theorem hexEncode_lower (bs : Bytes) (h : ∀ b ∈ bs, b < 256) :
    ∀ c ∈ hexEncode bs, isLowerHex c = true := by
  induction bs with
  | nil => simp [hexEncode]
  | cons b l ih =>
    intro c hc
    rw [hexEncode_cons] at hc
    simp only [List.mem_cons] at hc
    have hb := h b (by simp)
    rcases hc with hc | hc | hc
    · exact hc ▸ hexDigit_isLowerHex _ (by omega)
    · exact hc ▸ hexDigit_isLowerHex _ (by omega)
    · exact ih (fun x hx => h x (by simp [hx])) c hc

theorem hexDecode_hexEncode (bs : Bytes) (h : ∀ b ∈ bs, b < 256) :
    hexDecode (hexEncode bs) = some bs := by
  induction bs with
  | nil => rfl
  | cons b l ih =>
    rw [hexEncode_cons]
    have hb := h b (by simp)
    rw [hexDecode, hexVal_hexDigit (b / 16) (by omega), hexVal_hexDigit (b % 16) (by omega),
      ih (fun x hx => h x (by simp [hx]))]
    show some ((16 * (b / 16) + b % 16) :: l) = some (b :: l)
    have e : 16 * (b / 16) + b % 16 = b := by omega
    rw [e]

theorem hexDecode_of_lower : (s : Bytes) → (∀ c ∈ s, isLowerHex c = true) →
    s.length % 2 = 0 →
    ∃ bs, hexDecode s = some bs ∧ hexEncode bs = s ∧ 2 * bs.length = s.length ∧
      ∀ b ∈ bs, b < 256
  | [], _, _ => ⟨[], rfl, rfl, rfl, by simp⟩
  | [c], _, hl => by simp at hl
  | c1 :: c2 :: rest, h, hl => by
    obtain ⟨v1, hv1, h16a, hd1⟩ := hexVal_of_lower c1 (h c1 (by simp))
    obtain ⟨v2, hv2, h16b, hd2⟩ := hexVal_of_lower c2 (h c2 (by simp))
    obtain ⟨bs, hdec, henc, hlen, hlt⟩ :=
      hexDecode_of_lower rest (fun c hc => h c (by simp [hc])) (by simp at hl ⊢; omega)
    refine ⟨(16 * v1 + v2) :: bs, ?_, ?_, ?_, ?_⟩
    · rw [hexDecode, hv1, hv2, hdec]
    · rw [hexEncode_cons]
      have e1 : (16 * v1 + v2) / 16 = v1 := by omega
      have e2 : (16 * v1 + v2) % 16 = v2 := by omega
      rw [e1, e2, hd1, hd2, henc]
    · simp; omega
    · intro b hb
      rcases List.mem_cons.mp hb with hb | hb
      · omega
      · exact hlt b hb

theorem hexToBytes_hexEncode (bs : Bytes) (h : ∀ b ∈ bs, b < 256) :
    hexToBytes (hexEncode bs) = some bs := by
  unfold hexToBytes
  rw [hexEncode_length]
  simp [hexDecode_hexEncode bs h]

theorem bytesOfWord_lt (w : Nat) : ∀ b ∈ bytesOfWord w, b < 256 := by
  simp only [bytesOfWord, List.mem_cons, List.not_mem_nil, or_false]
  intro b hb
  rcases hb with h | h | h | h <;> omega

theorem sha1_length (m : Bytes) : (sha1 m).length = 20 := by
  simp [sha1, bytesOfWord]

theorem sha1_lt (m : Bytes) : ∀ b ∈ sha1 m, b < 256 := by
  intro b hb
  simp only [sha1, List.mem_append] at hb
  rcases hb with ((((h | h) | h) | h) | h) <;> exact bytesOfWord_lt _ b h

theorem sha1Hex_length (m : Bytes) : (sha1Hex m).length = 40 := by
  unfold sha1Hex
  rw [hexEncode_length, sha1_length]

theorem sha1Hex_lower (m : Bytes) : ∀ c ∈ sha1Hex m, isLowerHex c = true :=
  hexEncode_lower _ (sha1_lt m)

theorem sha1Hex_ne_nil (m : Bytes) : sha1Hex m ≠ [] := by
  intro h
  have := sha1Hex_length m
  rw [h] at this
  simp at this

theorem lowerHex_not_space (c : Nat) (h : isLowerHex c = true) :
    isSpaceByte c = false := by
  unfold isLowerHex at h
  unfold isSpaceByte
  simp at h ⊢
  omega

theorem lowerHex_ne_zero (c : Nat) (h : isLowerHex c = true) : c ≠ 0 := by
  unfold isLowerHex at h
  simp at h
  omega

theorem dropWhile_all_false (p : Nat → Bool) (l : Bytes) (h : ∀ c ∈ l, p c = false) :
    List.dropWhile p l = l := by
  induction l with
  | nil => rfl
  | cons a t ih =>
    rw [List.dropWhile_cons, h a (by simp)]
    simp only [Bool.false_eq_true, if_false]

theorem trimSpace_of_nospace (l : Bytes) (h : ∀ c ∈ l, isSpaceByte c = false) :
    trimSpace l = l := by
  unfold trimSpace
  rw [dropWhile_all_false _ _ h,
    dropWhile_all_false _ _ (fun c hc => h c (List.mem_reverse.mp hc)),
    List.reverse_reverse]

theorem trimSpace_cons_space (l : Bytes) : trimSpace (32 :: l) = trimSpace l := by
  unfold trimSpace
  rw [List.dropWhile_cons]
  norm_num [isSpaceByte]

theorem trimSpace_append_nl (l : Bytes) (hne : l ≠ [])
    (h : ∀ c ∈ l, isSpaceByte c = false) : trimSpace (l ++ [10]) = l := by
  obtain ⟨a, t, rfl⟩ := List.exists_cons_of_ne_nil hne
  unfold trimSpace
  rw [List.cons_append, List.dropWhile_cons, h a (by simp)]
  simp only [Bool.false_eq_true, if_false]
  have hrev : (a :: (t ++ [10])).reverse = 10 :: ((a :: t).reverse) := by simp
  rw [hrev, List.dropWhile_cons, show isSpaceByte 10 = true from rfl]
  simp only [if_true]
  rw [dropWhile_all_false _ _
    (fun c hc => h c (List.mem_reverse.mp hc)), List.reverse_reverse]

theorem trimSpace_wrap (a : Nat) (x b : Bytes) (ha : isSpaceByte a = false)
    (hb : b ≠ []) (hs : ∀ c ∈ b, isSpaceByte c = false) :
    trimSpace ((a :: x) ++ b ++ [10]) = (a :: x) ++ b := by
  unfold trimSpace
  rw [List.append_assoc, List.cons_append, List.dropWhile_cons, ha]
  simp only [Bool.false_eq_true, if_false]
  obtain ⟨c, bs, hrev⟩ := List.exists_cons_of_ne_nil
    (show b.reverse ≠ [] by simp [hb])
  have hc : isSpaceByte c = false :=
    hs c (List.mem_reverse.mp (hrev ▸ List.mem_cons_self c bs))
  have hrv : (a :: (x ++ (b ++ [10]))).reverse
      = 10 :: (c :: (bs ++ (a :: x).reverse)) := by
    simp [hrev]
  rw [hrv, List.dropWhile_cons, show isSpaceByte 10 = true from rfl]
  simp only [if_true]
  rw [List.dropWhile_cons, hc]
  simp only [Bool.false_eq_true, if_false]
  have hb2 : b = bs.reverse ++ [c] := by
    rw [← List.reverse_reverse b, hrev]
    simp
  simp [hb2]

theorem trim_head_main (b : Bytes) (hne : b ≠ [])
    (hs : ∀ c ∈ b, isSpaceByte c = false) :
    trimSpace (str "ref: refs/heads/" ++ b ++ [10]) = str "ref: refs/heads/" ++ b := by
  have e : str "ref: refs/heads/" = 114 :: str "ef: refs/heads/" := by decide
  rw [e]
  exact trimSpace_wrap 114 (str "ef: refs/heads/") b (by decide) hne hs

theorem refsheads_nospace (b : Bytes) (hs : ∀ c ∈ b, isSpaceByte c = false) :
    ∀ c ∈ str "refs/heads/" ++ b, isSpaceByte c = false := by
  intro c hc
  rcases List.mem_append.mp hc with hc | hc
  · exact (by decide : ∀ x ∈ str "refs/heads/", isSpaceByte x = false) c hc
  · exact hs c hc

theorem drop4_head (b : Bytes) :
    (str "ref: refs/heads/" ++ b).drop 4 = 32 :: (str "refs/heads/" ++ b) := by
  have e : str "ref: refs/heads/" = str "ref:" ++ (32 :: str "refs/heads/") := by decide
  rw [e, List.append_assoc]
  rw [show (4 : Nat) = (str "ref:").length from rfl, List.drop_left]
  rfl

theorem trim_refPath (b : Bytes) (hs : ∀ c ∈ b, isSpaceByte c = false) :
    trimSpace ((str "ref: refs/heads/" ++ b).drop 4) = str "refs/heads/" ++ b := by
  rw [drop4_head, trimSpace_cons_space,
    trimSpace_of_nospace _ (refsheads_nospace b hs)]

theorem prefix_ref_head (b : Bytes) :
    (str "ref: ").isPrefixOf (str "ref: refs/heads/" ++ b) = true := by
  rw [List.isPrefixOf_iff_prefix]
  have e : str "ref: refs/heads/" = str "ref: " ++ str "refs/heads/" := by decide
  rw [e, List.append_assoc]
  exact List.prefix_append _ _

theorem prefix_ref_heads_head (b : Bytes) :
    (str "ref: refs/heads/").isPrefixOf (str "ref: refs/heads/" ++ b) = true := by
  rw [List.isPrefixOf_iff_prefix]
  exact List.prefix_append _ _

theorem drop16_head (b : Bytes) : (str "ref: refs/heads/" ++ b).drop 16 = b := by
  rw [show (16 : Nat) = (str "ref: refs/heads/").length from rfl, List.drop_left]

theorem objPath_split (h : Bytes) :
    objPath h = str ".git/objects/" ++ (h.take 2 ++ ([47] ++ h.drop 2)) := by
  simp [objPath]

theorem take6_objPath (h : Bytes) : (objPath h).take 6 = str ".git/o" := by
  rw [objPath_split, List.take_append_of_le_length (by decide)]
  decide

theorem objPath_ne_headPath (h : Bytes) : objPath h ≠ headPath := by
  intro he
  have h6 := congrArg (List.take 6) he
  rw [take6_objPath] at h6
  exact absurd h6 (by decide)

theorem objPath_ne_indexPath (h : Bytes) : objPath h ≠ indexPath := by
  intro he
  have h6 := congrArg (List.take 6) he
  rw [take6_objPath] at h6
  exact absurd h6 (by decide)

theorem take6_refsHeads (b : Bytes) :
    (str ".git/refs/heads/" ++ b).take 6 = str ".git/r" := by
  rw [List.take_append_of_le_length (by decide)]
  decide

theorem objPath_ne_refsHeads (h b : Bytes) :
    objPath h ≠ str ".git/refs/heads/" ++ b := by
  intro he
  have h6 := congrArg (List.take 6) he
  rw [take6_objPath, take6_refsHeads] at h6
  exact absurd h6 (by decide)

theorem indexPath_ne_headPath : indexPath ≠ headPath := by decide

theorem indexPath_ne_refsHeads (b : Bytes) :
    indexPath ≠ str ".git/refs/heads/" ++ b := by
  intro he
  have h6 := congrArg (List.take 6) he
  rw [take6_refsHeads] at h6
  exact absurd h6 (by decide)

theorem insertionSort_perm_eq (l1 l2 : List Bytes) (h : l1.Perm l2) :
    List.insertionSort (· ≤ ·) l1 = List.insertionSort (· ≤ ·) l2 :=
  @List.eq_of_perm_of_sorted Bytes (· ≤ ·) _ _ _
    ((List.perm_insertionSort _ l1).trans (h.trans (List.perm_insertionSort _ l2).symm))
    (List.sorted_insertionSort _ l1)
    (List.sorted_insertionSort _ l2)

theorem read_some_mem_keys (fs : FS) (p : Bytes) (v : Bytes)
    (h : FS.read fs p = some v) : p ∈ fs.map Prod.fst := by
  induction fs with
  | nil => simp [FS.read] at h
  | cons a fsr ih =>
    obtain ⟨pk, pv⟩ := a
    rw [FS.read] at h
    by_cases he : pk = p
    · simp [he]
    · rw [if_neg he] at h
      simp [ih h]

theorem readDir_mem_of_read (fs : FS) (dir name c : Bytes)
    (h : FS.read fs (dir ++ [47] ++ name) = some c) :
    ∃ files, fs.readDir dir = some files ∧ name ∈ files := by
  have hkey : (dir ++ [47] ++ name) ∈ fs.map Prod.fst := read_some_mem_keys _ _ _ h
  have hpre : (dir ++ [47]).isPrefixOf (dir ++ [47] ++ name) = true := by
    rw [List.isPrefixOf_iff_prefix]
    exact List.prefix_append _ _
  have hdrop : (dir ++ [47] ++ name).drop (dir.length + 1) = name := by
    rw [show dir.length + 1 = (dir ++ [47]).length by simp, List.drop_left]
  have hmem : name ∈ fs.filterMap (fun e =>
      if (dir ++ [47]).isPrefixOf e.1 then some (e.1.drop (dir.length + 1)) else none) := by
    rw [List.mem_filterMap]
    obtain ⟨e, hme, hfst⟩ := List.mem_map.mp hkey
    exact ⟨e, hme, by rw [hfst, hpre, if_pos rfl, hdrop]⟩
  refine ⟨List.insertionSort (· ≤ ·) (fs.filterMap (fun e =>
      if (dir ++ [47]).isPrefixOf e.1 then some (e.1.drop (dir.length + 1)) else none)),
    ?_, ?_⟩
  · unfold FS.readDir
    rw [if_neg (List.ne_nil_of_mem hmem)]
  · exact (List.perm_insertionSort _ _).mem_iff.mpr hmem

/-! # Claim theorems -/

/-- C8: the claim says index loading is total and tolerant for every
possible byte content.  The code is not: when exactly 6 bytes remain at the
start of a record, the guard `i+6 > len(content)` passes, `i += 7` moves the
cursor one byte past the end, and the Go slice expression `content[i:]`
panics (modelled as `none`).  One byte fewer or one byte more parses
cleanly, which shows the intended tolerant behaviour around the slip. -/
theorem c8_readIndex_panic_on_six_byte_tail :
    readIndexGo (str "100644") = none ∧
    readIndexFile (some (str "100644")) = none ∧
    readIndexGo (str "10064") = some [] ∧
    readIndexGo (str "100644 ") = some [] := by decide

/-- C1 counterexample: the claim says the compress-and-write step is skipped
for every kind when an object file already exists at the derived path.  For
the tree kind (`writeTreeFromIndex`) the write is unconditional: storing the
empty tree over a path that already holds `"x"` replaces the content, so the
write was not a no-op. -/
theorem c1_counterexample :
    FS.pathExists [(objPath (str "4b825dc642cb6eb9a060e54bf8d69288fbee4904"), str "x")]
      (objPath (str "4b825dc642cb6eb9a060e54bf8d69288fbee4904")) = true ∧
    writeTreeFromIndex []
      [(objPath (str "4b825dc642cb6eb9a060e54bf8d69288fbee4904"), str "x")]
      = .ok (str "4b825dc642cb6eb9a060e54bf8d69288fbee4904",
             [(objPath (str "4b825dc642cb6eb9a060e54bf8d69288fbee4904"),
               str "tree 0" ++ [0])]) ∧
    str "tree 0" ++ [0] ≠ str "x" := by decide

/-- C1 (amended): storing twice yields the same hash both times and leaves
the store unchanged after the first store.  For blobs (`hashFile`) the write
is skipped when the object file exists; for trees (`writeTreeFromIndex`) the
object is rewritten unconditionally with the identical content-derived
bytes, so the store state is nevertheless the same and still holds exactly
one object at that path.  The hash is returned unconditionally in both
branches. -/
theorem c1_store_idempotent (b : Bytes) (fs : FS) (m : List (Bytes × Bytes))
    (t : Bytes) (fs1 : FS) (h : writeTreeFromIndex m fs = .ok (t, fs1)) :
    hashFile b ((hashFile b fs).2) = ((hashFile b fs).1, (hashFile b fs).2) ∧
    writeTreeFromIndex m fs1 = .ok (t, fs1) := by
  constructor
  · by_cases he : FS.pathExists fs
        (objPath (sha1Hex (str "blob " ++ natDec b.length ++ [0] ++ b))) = true
    · have h1 : hashFile b fs
          = (sha1Hex (str "blob " ++ natDec b.length ++ [0] ++ b), fs) := by
        unfold hashFile
        rw [if_pos he]
      rw [h1]
      exact h1
    · have h1 : hashFile b fs
          = (sha1Hex (str "blob " ++ natDec b.length ++ [0] ++ b),
             fs.write (objPath (sha1Hex (str "blob " ++ natDec b.length ++ [0] ++ b)))
               (str "blob " ++ natDec b.length ++ [0] ++ b)) := by
        unfold hashFile
        rw [if_neg he]
      rw [h1]
      show hashFile b
          (fs.write (objPath (sha1Hex (str "blob " ++ natDec b.length ++ [0] ++ b)))
            (str "blob " ++ natDec b.length ++ [0] ++ b))
        = (sha1Hex (str "blob " ++ natDec b.length ++ [0] ++ b),
           fs.write (objPath (sha1Hex (str "blob " ++ natDec b.length ++ [0] ++ b)))
             (str "blob " ++ natDec b.length ++ [0] ++ b))
      unfold hashFile
      rw [if_pos (by unfold FS.pathExists; rw [FS.read_write_same]; rfl)]
  · simp only [writeTreeFromIndex] at h ⊢
    cases hb : treeBodyLoop (List.insertionSort (· ≤ ·) (m.map renderEntry)) with
    | error e => simp [hb] at h
    | ok body =>
      rw [hb] at h
      simp only [Except.ok.injEq, Prod.mk.injEq] at h
      obtain ⟨ht, hfs⟩ := h
      subst ht
      subst hfs
      simp only [Except.ok.injEq, Prod.mk.injEq, FS.write_write_same]

/-- C1 witness: the amended theorem instantiated at the empty blob and the
empty tree over the empty store. -/
theorem c1_store_idempotent_witness :
    hashFile [] ((hashFile [] []).2) = ((hashFile [] []).1, (hashFile [] []).2) ∧
    writeTreeFromIndex []
      [(objPath (str "4b825dc642cb6eb9a060e54bf8d69288fbee4904"), str "tree 0" ++ [0])]
      = .ok (str "4b825dc642cb6eb9a060e54bf8d69288fbee4904",
             [(objPath (str "4b825dc642cb6eb9a060e54bf8d69288fbee4904"),
               str "tree 0" ++ [0])]) :=
  c1_store_idempotent [] [] [] (str "4b825dc642cb6eb9a060e54bf8d69288fbee4904")
    [(objPath (str "4b825dc642cb6eb9a060e54bf8d69288fbee4904"), str "tree 0" ++ [0])]
    (by decide)

/-- C3: the tree hash is a function of the entry multiset alone — two maps
that are permutations of each other produce the same tree hash whatever
store they are built over, because the rendered entries are sorted before
concatenation; and the empty entry map produces the canonical empty-tree
object `4b825dc642cb6eb9a060e54bf8d69288fbee4904` deterministically. -/
theorem c3_tree_determinism (m1 m2 : List (Bytes × Bytes)) (fs fs' : FS)
    (h : m1.Perm m2) :
    (writeTreeFromIndex m1 fs).map (fun r => r.1)
      = (writeTreeFromIndex m2 fs').map (fun r => r.1) ∧
    writeTreeFromIndex [] fs
      = .ok (str "4b825dc642cb6eb9a060e54bf8d69288fbee4904",
          fs.write (objPath (str "4b825dc642cb6eb9a060e54bf8d69288fbee4904"))
            (str "tree 0" ++ [0])) := by
  constructor
  · simp only [writeTreeFromIndex]
    rw [insertionSort_perm_eq _ _ (h.map renderEntry)]
    cases treeBodyLoop (List.insertionSort (· ≤ ·) (m2.map renderEntry)) <;> rfl
  · show Except.ok (sha1Hex (treeFrame []), fs.write (objPath (sha1Hex (treeFrame []))) (treeFrame [])) = _
    rw [show sha1Hex (treeFrame []) = str "4b825dc642cb6eb9a060e54bf8d69288fbee4904" from by decide,
      show treeFrame [] = str "tree 0" ++ [0] from by decide]

/-- C3 witness: two concrete two-entry maps that are permutations of each
other, and the empty map, over the empty store. -/
theorem c3_tree_determinism_witness :
    (writeTreeFromIndex [(str "a", List.replicate 40 97), (str "b", List.replicate 40 98)] []).map (fun r => r.1)
      = (writeTreeFromIndex [(str "b", List.replicate 40 98), (str "a", List.replicate 40 97)] []).map (fun r => r.1) ∧
    writeTreeFromIndex [] ([] : FS)
      = .ok (str "4b825dc642cb6eb9a060e54bf8d69288fbee4904",
          FS.write [] (objPath (str "4b825dc642cb6eb9a060e54bf8d69288fbee4904"))
            (str "tree 0" ++ [0])) :=
  c3_tree_determinism [(str "a", List.replicate 40 97), (str "b", List.replicate 40 98)]
    [(str "b", List.replicate 40 98), (str "a", List.replicate 40 97)] [] []
    (by decide)

/-- C5 counterexample: the claim says resolution returns the object's full
40-character hash.  The code returns `file.Name()` — the 38-character file
name inside the two-character fan-out directory — not the full hash. -/
theorem c5_counterexample :
    getFullHashFromAbbreviated (str "abcdefg")
      [(str ".git/objects/ab/cdefg" ++ List.replicate 33 48, str "x")]
      = .ok (str "cdefg" ++ List.replicate 33 48) ∧
    (str "cdefg" ++ List.replicate 33 48).length = 38 ∧
    str "cdefg" ++ List.replicate 33 48
      ≠ str "ab" ++ (str "cdefg" ++ List.replicate 33 48) := by decide

/-- C5 (amended): an abbreviation of at least 7 characters whose match in
the listed fan-out directory is unique resolves to the matching
38-character file name, i.e. the full hash minus its first two characters
(the caller reassembles the path from the directory); every prefix shorter
than 7 characters is rejected. -/
theorem c5_resolve_abbrev (ab H c : Bytes) (files : List Bytes) (fs : FS)
    (hlen : 7 ≤ ab.length)
    (hpre2 : H.take 2 = ab.take 2)
    (hstored : FS.read fs (objPath H) = some c)
    (hfiles : fs.readDir (str ".git/objects/" ++ ab.take 2) = some files)
    (hmatch : (ab.drop 2).isPrefixOf (H.drop 2) = true)
    (huniq : ∀ f ∈ files, (ab.drop 2).isPrefixOf f = true → f = H.drop 2) :
    getFullHashFromAbbreviated ab fs = .ok (H.drop 2) ∧
    ∀ ab', ab'.length < 7 → getFullHashFromAbbreviated ab' fs = .error GErr.tooShort := by
  constructor
  · have hobj : objPath H = (str ".git/objects/" ++ ab.take 2) ++ [47] ++ H.drop 2 := by
      rw [objPath, hpre2]
    rw [hobj] at hstored
    obtain ⟨files', hd', hm'⟩ :=
      readDir_mem_of_read fs (str ".git/objects/" ++ ab.take 2) (H.drop 2) c hstored
    rw [hfiles] at hd'
    obtain rfl : files = files' := Option.some.inj hd'
    unfold getFullHashFromAbbreviated
    rw [if_neg (by omega)]
    cases hf : files.find? (fun f => (ab.drop 2).isPrefixOf f) with
    | none =>
      rw [List.find?_eq_none] at hf
      exact absurd hmatch (hf _ hm')
    | some f0 =>
      have hf0 := huniq f0 (List.mem_of_find?_eq_some hf) (List.find?_some hf)
      simp only [hfiles, hf, hf0]
  · intro ab' h'
    unfold getFullHashFromAbbreviated
    rw [if_pos h']

/-- C5 witness: a store holding one object with hash
`"ab" ++ "cdefg" ++ 33 × "0"`; the 7-character abbreviation resolves to the
38-character file name, and 6-character prefixes are rejected. -/
theorem c5_resolve_abbrev_witness :
    getFullHashFromAbbreviated (str "abcdefg")
      [(objPath (str "abcdefg" ++ List.replicate 33 48), str "x")]
      = .ok ((str "abcdefg" ++ List.replicate 33 48).drop 2) ∧
    ∀ ab', ab'.length < 7 →
      getFullHashFromAbbreviated ab'
        [(objPath (str "abcdefg" ++ List.replicate 33 48), str "x")]
        = .error GErr.tooShort :=
  c5_resolve_abbrev (str "abcdefg") (str "abcdefg" ++ List.replicate 33 48) (str "x")
    [str "cdefg" ++ List.replicate 33 48]
    [(objPath (str "abcdefg" ++ List.replicate 33 48), str "x")]
    (by decide) (by decide) (by decide) (by decide) (by decide) (by decide)

/-- C7 counterexample: the claim says cat-file fails with CorruptObject when
the declared length does not match the body length.  The code never checks
the declared length: a stored frame `"blob 5\x00hi"` (declared 5, body
length 2) is read back successfully. -/
theorem c7_counterexample :
    catFile (List.replicate 40 97)
      [(objPath (List.replicate 40 97), str "blob 5" ++ [0] ++ str "hi")]
      = .ok (str "hi") ∧ (str "hi").length ≠ 5 := by decide

/-- C7 (amended): cat-file fails with the open error when no file exists at
the derived path, fails with the invalid-format error when the decompressed
frame contains no null separator, and otherwise returns everything after the
first null — the declared length in the header is never validated. -/
theorem c7_cat_file (object hdr body : Bytes) (fs : FS) :
    (FS.read fs (objPath object) = none → catFile object fs = .error .openError) ∧
    (∀ data, FS.read fs (objPath object) = some data → (∀ c ∈ data, c ≠ 0) →
      catFile object fs = .error .invalidFormat) ∧
    (FS.read fs (objPath object) = some (hdr ++ [0] ++ body) → (∀ c ∈ hdr, c ≠ 0) →
      catFile object fs = .ok body) := by
  refine ⟨?_, ?_, ?_⟩
  · intro h
    unfold objPath at h
    simp only [catFile, h]
  · intro data h hz
    unfold objPath at h
    have hfind : List.findIdx? (fun x => x == 0) data = none :=
      findIdx?_none_of_all _ _ _ (fun c hc => beq_eq_false_iff_ne.mpr (hz c hc))
    simp only [catFile, h, hfind]
  · intro h hz
    unfold objPath at h
    have he : hdr ++ [0] ++ body = hdr ++ 0 :: body := by simp
    rw [he] at h
    have hfind : List.findIdx? (fun x => x == 0) (hdr ++ 0 :: body) = some hdr.length := by
      have h0 := findIdx?_zero_append hdr body 0 hz
      simpa using h0
    have hdrop : (hdr ++ 0 :: body).drop (hdr.length + 1) = body := by
      rw [show hdr ++ 0 :: body = (hdr ++ [0]) ++ body by simp,
        show hdr.length + 1 = (hdr ++ [0]).length by simp, List.drop_left]
    simp only [catFile, h, hfind, hdrop]

/-- C7 witness: the three behaviours at concrete stores — a missing object,
a frame with no null separator, and a well-formed frame. -/
theorem c7_cat_file_witness :
    catFile (List.replicate 40 97) [] = .error .openError ∧
    catFile (List.replicate 40 98)
      [(objPath (List.replicate 40 98), str "junk")] = .error .invalidFormat ∧
    catFile (List.replicate 40 99)
      [(objPath (List.replicate 40 99), str "blob 2" ++ [0] ++ str "hi")]
      = .ok (str "hi") :=
  ⟨(c7_cat_file (List.replicate 40 97) [] [] []).1 (by decide),
   (c7_cat_file (List.replicate 40 98) [] []
      [(objPath (List.replicate 40 98), str "junk")]).2.1 (str "junk")
      (by decide) (by decide),
   (c7_cat_file (List.replicate 40 99) (str "blob 2") (str "hi")
      [(objPath (List.replicate 40 99), str "blob 2" ++ [0] ++ str "hi")]).2.2
      (by decide) (by decide)⟩

theorem readIndexLoop_fuel (f1 : Nat) : ∀ (f2 : Nat) (c : Bytes) acc,
    c.length ≤ f1 → c.length ≤ f2 →
    readIndexLoop f1 c acc = readIndexLoop f2 c acc := by
  induction f1 with
  | zero =>
    intro f2 c acc h1 h2
    have hc : c = [] := List.eq_nil_of_length_eq_zero (by omega)
    subst hc
    cases f2 <;> simp [readIndexLoop]
  | succ f1 ih =>
    intro f2 c acc h1 h2
    cases f2 with
    | zero =>
      have hc : c = [] := List.eq_nil_of_length_eq_zero (by omega)
      subst hc
      simp [readIndexLoop]
    | succ f2 =>
      rw [readIndexLoop, readIndexLoop]
      by_cases hc6 : c.length < 6
      · simp only [if_pos hc6]
      · simp only [if_neg hc6]
        by_cases hce : c.length = 6
        · simp only [if_pos hce]
        · simp only [if_neg hce]
          cases hfi : (c.drop 7).findIdx? (· == 0) with
          | none => simp only [hfi]
          | some k =>
            simp only [hfi]
            by_cases h20 : ((c.drop 7).drop (k + 1)).length < 20
            · simp only [if_pos h20]
            · simp only [if_neg h20]
              apply ih
              · simp only [List.length_drop] at h20 ⊢
                omega
              · simp only [List.length_drop] at h20 ⊢
                omega

theorem readIndexLoop_record (fuel : Nat) (p hsh hb rest : Bytes)
    (acc : List (Bytes × Bytes))
    (hp : ∀ c ∈ p, c ≠ 0) (hb20 : hb.length = 20) (henc : hexEncode hb = hsh)
    (hfuel : rest.length ≤ fuel) :
    readIndexLoop (fuel + 1) (str "100644 " ++ p ++ [0] ++ hb ++ rest) acc
      = readIndexLoop rest.length rest (FS.write acc p hsh) := by
  have hcontent : str "100644 " ++ p ++ [0] ++ hb ++ rest
      = str "100644 " ++ (p ++ 0 :: (hb ++ rest)) := by simp
  rw [hcontent, readIndexLoop]
  have h7 : (str "100644 ").length = 7 := rfl
  have hlen : (str "100644 " ++ (p ++ 0 :: (hb ++ rest))).length
      = 28 + p.length + rest.length := by
    simp [h7, hb20]
    omega
  have hdrop7 : (str "100644 " ++ (p ++ 0 :: (hb ++ rest))).drop 7
      = p ++ 0 :: (hb ++ rest) := by
    rw [← h7, List.drop_left]
  have hfind : List.findIdx? (fun x => x == 0) (p ++ 0 :: (hb ++ rest))
      = some p.length := by
    have h0 := findIdx?_zero_append p (hb ++ rest) 0 hp
    simpa using h0
  have htake : (p ++ 0 :: (hb ++ rest)).take p.length = p := by
    rw [show p ++ 0 :: (hb ++ rest) = p ++ (0 :: (hb ++ rest)) from rfl,
      List.take_left]
  have hdropP : (p ++ 0 :: (hb ++ rest)).drop (p.length + 1) = hb ++ rest := by
    rw [show p ++ 0 :: (hb ++ rest) = (p ++ [0]) ++ (hb ++ rest) by simp,
      show p.length + 1 = (p ++ [0]).length by simp, List.drop_left]
  have h20 : ¬ ((hb ++ rest).length < 20) := by simp [hb20]
  have htake20 : (hb ++ rest).take 20 = hb := by
    rw [← hb20, List.take_left]
  have hdrop20 : (hb ++ rest).drop 20 = rest := by
    rw [← hb20, List.drop_left]
  rw [if_neg (by omega), if_neg (by omega)]
  simp only [hdrop7, hfind, htake, hdropP, htake20, hdrop20, henc, if_neg h20]
  exact readIndexLoop_fuel fuel rest.length rest _ hfuel le_rfl

theorem writeIndex_readIndex_loop : (m : List (Bytes × Bytes)) →
    ((m.map Prod.fst).Nodup) → (∀ e ∈ m, ∀ c ∈ e.1, c ≠ 0) →
    (∀ e ∈ m, e.2.length = 40) → (∀ e ∈ m, ∀ c ∈ e.2, isLowerHex c = true) →
    ∀ acc, (∀ e ∈ m, e.1 ∉ acc.map Prod.fst) →
    ∃ bs, writeIndexBytes m = some bs ∧
      ∀ fuel, bs.length ≤ fuel → readIndexLoop fuel bs acc = some (acc ++ m)
  | [], _, _, _, _, acc, _ =>
    ⟨[], rfl, by
      intro fuel _
      cases fuel <;> simp [readIndexLoop]⟩
  | (p, hsh) :: m, hnodup, hpaths, hlen40, hlower, acc, hdisj => by
    have hlow : ∀ c ∈ hsh, isLowerHex c = true := hlower (p, hsh) (by simp)
    have h40 : hsh.length = 40 := hlen40 (p, hsh) (by simp)
    obtain ⟨hb, hdec, henc, hblen, _⟩ :=
      hexDecode_of_lower hsh hlow (by omega)
    have hhex : hexToBytes hsh = some hb := by
      unfold hexToBytes
      rw [if_neg (by omega)]
      exact hdec
    have hnodup' : (m.map Prod.fst).Nodup := (List.nodup_cons.mp hnodup).2
    have hpnotm : p ∉ m.map Prod.fst := (List.nodup_cons.mp hnodup).1
    obtain ⟨bs', hw', hparse'⟩ :=
      writeIndex_readIndex_loop m hnodup'
        (fun e he => hpaths e (by simp [he]))
        (fun e he => hlen40 e (by simp [he]))
        (fun e he => hlower e (by simp [he]))
        (acc ++ [(p, hsh)])
        (by
          intro e he
          simp only [List.map_append, List.mem_append]
          push_neg
          constructor
          · exact hdisj e (by simp [he])
          · simp only [List.map_cons, List.map_nil, List.mem_singleton]
            intro hc
            exact hpnotm (hc ▸ List.mem_map_of_mem Prod.fst he))
    refine ⟨str "100644 " ++ p ++ [0] ++ hb ++ bs', ?_, ?_⟩
    · unfold writeIndexBytes
      rw [hhex, hw']
    · intro fuel hfuel
      have hlen : (str "100644 " ++ p ++ [0] ++ hb ++ bs').length
          = 28 + p.length + bs'.length := by
        have h7 : (str "100644 ").length = 7 := rfl
        simp [h7]
        omega
      obtain ⟨f, rfl⟩ : ∃ f, fuel = f + 1 := ⟨fuel - 1, by omega⟩
      rw [readIndexLoop_record f p hsh hb bs' acc
        (hpaths (p, hsh) (by simp)) (by omega) henc (by omega)]
      rw [FS.write_of_not_mem acc p hsh (hdisj (p, hsh) (by simp))]
      rw [hparse' bs'.length le_rfl]
      simp

/-- C2 counterexample: the claim admits every valid 40-character hex string
as a hash, including upper-case digits, which `hex.Decode` accepts; but
`hex.EncodeToString` always re-renders lower-case, so the map with hash
`"A"×40` loads back as `"a"×40`, not as itself. -/
theorem c2_counterexample :
    (writeIndexBytes [(str "a", List.replicate 40 65)]).bind readIndexGo
      = some [(str "a", List.replicate 40 97)] ∧
    (hexToBytes (List.replicate 40 65)).isSome = true ∧
    List.replicate 40 65 ≠ List.replicate 40 97 := by decide

/-- C2 (amended): for every map whose paths are unique and null-free and
whose hashes are valid 40-character **lower-case** hex strings, loading the
index immediately after saving it returns exactly the same map; loading when
no index file exists returns the empty map (and hence the empty map
round-trips to itself). -/
theorem c2_index_roundtrip (m : List (Bytes × Bytes))
    (hnodup : (m.map Prod.fst).Nodup)
    (hpaths : ∀ e ∈ m, ∀ c ∈ e.1, c ≠ 0)
    (hlen40 : ∀ e ∈ m, e.2.length = 40)
    (hlower : ∀ e ∈ m, ∀ c ∈ e.2, isLowerHex c = true) :
    (writeIndexBytes m).bind readIndexGo = some m ∧
    readIndexFile none = some [] := by
  obtain ⟨bs, hw, hparse⟩ :=
    writeIndex_readIndex_loop m hnodup hpaths hlen40 hlower [] (by simp)
  rw [hw]
  exact ⟨by simpa using hparse bs.length le_rfl, rfl⟩

/-- C2 witness: a concrete two-entry map with lower-case hashes
round-trips, and the empty index file is read as the empty map. -/
theorem c2_index_roundtrip_witness :
    (writeIndexBytes [(str "a.txt", List.replicate 40 97), (str "b.txt", List.replicate 40 102)]).bind readIndexGo
      = some [(str "a.txt", List.replicate 40 97), (str "b.txt", List.replicate 40 102)] ∧
    readIndexFile none = some [] :=
  c2_index_roundtrip
    [(str "a.txt", List.replicate 40 97), (str "b.txt", List.replicate 40 102)]
    (by decide) (by decide) (by decide) (by decide)

/-- C9 counterexample: the claim says a failed read of a named file aborts
the invocation with a non-zero status, staging nothing further and not
writing the index.  In the code the error is printed and the loop
continues: with patterns `["missing.txt", "a.txt"]` over a tree holding only
`a.txt`, the run exits successfully, `a.txt` is still staged, one error
line is on stderr, and the index file is written. -/
theorem c9_counterexample :
    addExitOk (addCmd [(str "a.txt", str "hi")] [str "missing.txt", str "a.txt"]) = true ∧
    (addStateOf (addCmd [(str "a.txt", str "hi")] [str "missing.txt", str "a.txt"])).map
        (fun st => (st.entries.map Prod.fst, st.stderr.length, (st.fs.read indexPath).isSome))
      = some ([str "a.txt"], 1, true) := by decide

/-- C9 (amended): a read failure on a named (non-`"."`) file is not
terminal: the loop records one stderr line and continues with the remaining
patterns exactly as if the failed pattern had been absent, and when the rest
of the invocation is clean the command still exits successfully and writes
the updated index.  (Errors during a `"."` walk and index read/write errors
remain terminal.) -/
theorem c9_add_error_not_terminal (st : AddState) (fs : FS) (bad ib : Bytes)
    (ps : List Bytes) (entries0 : List (Bytes × Bytes)) (stFinal : AddState)
    (hbad : bad ≠ str ".") (hmiss : st.fs.read bad = none)
    (hmiss' : fs.read bad = none)
    (hix : readIndexFile (fs.read indexPath) = some entries0)
    (hcont : addPatterns
      { entries := entries0, fs := fs, stdout := [],
        stderr := [str "Error adding file: " ++ (str "error reading file " ++ bad)] } ps
      = .ok stFinal)
    (hw : writeIndexBytes stFinal.entries = some ib) :
    addPatterns st (bad :: ps)
      = addPatterns { st with stderr := st.stderr ++
          [str "Error adding file: " ++ (str "error reading file " ++ bad)] } ps ∧
    addCmd fs (bad :: ps) = .ok { stFinal with fs := stFinal.fs.write indexPath ib } := by
  constructor
  · rw [addPatterns, if_neg hbad]
    unfold addFileToIndex
    rw [hmiss]
  · have hstep : addPatterns
        { entries := entries0, fs := fs, stdout := [], stderr := [] } (bad :: ps)
        = Except.ok stFinal := by
      rw [addPatterns, if_neg hbad]
      unfold addFileToIndex
      rw [hmiss']
      simpa using hcont
    simp only [addCmd, hix, if_neg (show ¬ (bad :: ps = []) from by simp), hstep, hw]

/-- C9 witness: a single unreadable pattern over a one-file tree with no
index: the invocation succeeds and writes an empty index. -/
theorem c9_add_error_not_terminal_witness :
    addPatterns ⟨[], [(str "a.txt", str "hi")], [], []⟩ [str "missing.txt"]
      = addPatterns ⟨[], [(str "a.txt", str "hi")], [],
          [str "Error adding file: " ++ (str "error reading file " ++ str "missing.txt")]⟩ [] ∧
    addCmd [(str "a.txt", str "hi")] [str "missing.txt"]
      = .ok { entries := [], fs := FS.write [(str "a.txt", str "hi")] indexPath [],
              stdout := [],
              stderr := [str "Error adding file: " ++ (str "error reading file " ++ str "missing.txt")] } :=
  c9_add_error_not_terminal ⟨[], [(str "a.txt", str "hi")], [], []⟩
    [(str "a.txt", str "hi")] (str "missing.txt") [] [] []
    { entries := [], fs := [(str "a.txt", str "hi")], stdout := [],
      stderr := [str "Error adding file: " ++ (str "error reading file " ++ str "missing.txt")] }
    (by decide) (by decide) (by decide) (by decide) (by decide) (by decide)

theorem not_pre_extend (t : Bytes) (h : (str "ref: ").isPrefixOf t = false) :
    (str "ref: refs/heads/").isPrefixOf t = false := by
  by_contra hc
  have hc' : (str "ref: refs/heads/").isPrefixOf t = true := by
    cases hx : (str "ref: refs/heads/").isPrefixOf t
    · exact absurd hx hc
    · rfl
  rw [List.isPrefixOf_iff_prefix] at hc'
  have h5 : (str "ref: ") <+: (str "ref: refs/heads/") := by decide
  have h6 := h5.trans hc'
  rw [← List.isPrefixOf_iff_prefix] at h6
  rw [h6] at h
  cases h

theorem read_write2_ne (fs : FS) (p1 v1 p2 v2 q : Bytes) (h1 : p1 ≠ q) (h2 : p2 ≠ q) :
    ((fs.write p1 v1).write p2 v2).read q = fs.read q := by
  rw [FS.read_write_ne _ _ _ _ h2, FS.read_write_ne _ _ _ _ h1]

/-- Characterization of a clean detached-head commit run: HEAD holds
something that is not a symbolic ref, so no parent is recorded, no ref file
is touched, the commit hash is not printed, and only the tree object, the
commit object and the index file are written. -/
theorem commitCmd_detached (fs : FS) (name email : Bytes) (ts : Nat)
    (tz msg hd : Bytes) (entries : List (Bytes × Bytes)) (body tH bodyC cH : Bytes)
    (hmsg : msg ≠ [])
    (hix : readIndexFile (fs.read indexPath) = some entries)
    (hne : entries ≠ [])
    (hbody : treeBodyLoop (List.insertionSort (· ≤ ·) (entries.map renderEntry)) = .ok body)
    (hhead : fs.read headPath = some hd)
    (hnp : (str "ref: ").isPrefixOf (trimSpace hd) = false)
    (htH : tH = sha1Hex (treeFrame body))
    (hbodyC : bodyC = commitBody tH [] name email ts tz msg)
    (hcH : cH = sha1Hex (commitFrame bodyC)) :
    commitCmd fs name email ts tz msg = .ok {
      commitHash := cH, body := bodyC, treeHash := tH, parentHash := [],
      printed := [[91] ++ [32] ++ cH.take 7 ++ str "] " ++ msg,
                  natDec entries.length ++ str " insertions(+)"],
      fs := ((fs.write (objPath tH) (treeFrame body)).write (objPath cH)
               (commitFrame bodyC)).write indexPath [] } := by
  have hwt : writeTreeFromIndex entries fs
      = .ok (tH, fs.write (objPath tH) (treeFrame body)) := by
    rw [htH]
    simp only [writeTreeFromIndex, hbody]
  have hbc : commitBody tH [] name email ts tz msg = bodyC := hbodyC.symm
  have hch : sha1Hex (commitFrame bodyC) = cH := hcH.symm
  have hr1 : (fs.write (objPath tH) (treeFrame body)).read headPath = some hd := by
    rw [FS.read_write_ne _ _ _ _ (objPath_ne_headPath _)]
    exact hhead
  have hr2 : ((fs.write (objPath tH) (treeFrame body)).write
      (objPath cH) (commitFrame bodyC)).read headPath = some hd := by
    rw [FS.read_write_ne _ _ _ _ (objPath_ne_headPath _)]
    exact hr1
  have hnp2 : (str "ref: refs/heads/").isPrefixOf (trimSpace hd) = false :=
    not_pre_extend _ hnp
  have hsne : natDec entries.length ++ str " insertions(+)" ≠ [] := by
    simp [natDec_ne_nil]
  simp only [commitCmd, if_neg hmsg, hix, if_neg hne, hwt, hbc, hch, hr1, hr2, hnp, hnp2,
    Bool.false_eq_true, if_false, writeIndexBytes, List.nil_append, List.append_nil,
    if_pos hsne, reduceIte, List.singleton_append]

theorem objPath_inj (h1 h2 : Bytes) (hl : h1.length = h2.length)
    (he : objPath h1 = objPath h2) : h1 = h2 := by
  have e1 : objPath h1 = str ".git/objects/" ++ (h1.take 2 ++ ([47] ++ h1.drop 2)) := by
    simp [objPath]
  have e2 : objPath h2 = str ".git/objects/" ++ (h2.take 2 ++ ([47] ++ h2.drop 2)) := by
    simp [objPath]
  rw [e1, e2] at he
  have he2 : h1.take 2 ++ ([47] ++ h1.drop 2) = h2.take 2 ++ ([47] ++ h2.drop 2) :=
    List.append_cancel_left he
  have hlen : (h1.take 2).length = (h2.take 2).length := by
    simp [hl]
  obtain ⟨ht, hrest⟩ := List.append_inj he2 hlen
  have hd : h1.drop 2 = h2.drop 2 := by
    simpa using hrest
  calc h1 = h1.take 2 ++ h1.drop 2 := (List.take_append_drop 2 h1).symm
    _ = h2.take 2 ++ h2.drop 2 := by rw [ht, hd]
    _ = h2 := List.take_append_drop 2 h2

theorem refs_pre_ne (q h : Bytes) (hq : (str ".git/refs/").isPrefixOf q = true) :
    objPath h ≠ q ∧ indexPath ≠ q ∧ headPath ≠ q := by
  rw [List.isPrefixOf_iff_prefix] at hq
  obtain ⟨t, rfl⟩ := hq
  refine ⟨?_, ?_, ?_⟩
  · intro he
    have h6 := congrArg (List.take 6) he
    rw [take6_objPath, List.take_append_of_le_length (by decide)] at h6
    exact absurd h6 (by decide)
  · intro he
    have h6 := congrArg (List.take 6) he
    rw [List.take_append_of_le_length (by decide)] at h6
    exact absurd h6 (by decide)
  · intro he
    have h6 := congrArg (List.take 6) he
    rw [List.take_append_of_le_length (by decide)] at h6
    exact absurd h6 (by decide)

/-- C6 counterexample: start from a symbolic-HEAD repository, make a root
commit, write that commit's own hash directly into HEAD (a detached head
holding a genuine commit hash), stage a file and commit again: the second
commit records no parent at all — `"parent "` does not even occur in its
body — although the claim says the hash read from HEAD becomes the parent. -/
theorem c6_counterexample :
    commitParentOf detachScenario = some [] ∧
    (commitBodyOf detachScenario).map (fun b => decide ((str "parent ") <:+: b))
      = some false := by decide

/-- C6 (amended): when HEAD holds a direct hash rather than a symbolic ref,
the commit takes no parent: `parentHash` is empty and the commit body is the
parentless rendering (tree line, author, committer, blank line, message —
no parent line). -/
theorem c6_detached_no_parent (fs : FS) (name email : Bytes) (ts : Nat)
    (tz msg hd : Bytes) (entries : List (Bytes × Bytes)) (body : Bytes)
    (hmsg : msg ≠ [])
    (hix : readIndexFile (fs.read indexPath) = some entries)
    (hne : entries ≠ [])
    (hbody : treeBodyLoop (List.insertionSort (· ≤ ·) (entries.map renderEntry)) = .ok body)
    (hhead : fs.read headPath = some hd)
    (hnp : (str "ref: ").isPrefixOf (trimSpace hd) = false) :
    ∃ r, commitCmd fs name email ts tz msg = CommitOut.ok r ∧
      r.parentHash = [] ∧
      r.body = commitBody r.treeHash [] name email ts tz msg :=
  ⟨_, commitCmd_detached fs name email ts tz msg hd entries body
      (sha1Hex (treeFrame body))
      (commitBody (sha1Hex (treeFrame body)) [] name email ts tz msg)
      (sha1Hex (commitFrame (commitBody (sha1Hex (treeFrame body)) [] name email ts tz msg)))
      hmsg hix hne hbody hhead hnp rfl rfl rfl,
    rfl, rfl⟩

/-- C6 witness: a concrete detached repository (HEAD is forty `a`
characters, one staged file). -/
theorem c6_detached_no_parent_witness :
    ∃ r, commitCmd
        [(headPath, List.replicate 40 97),
         (indexPath, str "100644 a.txt" ++ [0] ++ List.replicate 20 170)]
        (str "A") (str "a@b") 5 (str "+0000") (str "x") = CommitOut.ok r ∧
      r.parentHash = [] ∧
      r.body = commitBody r.treeHash [] (str "A") (str "a@b") 5 (str "+0000") (str "x") :=
  c6_detached_no_parent
    [(headPath, List.replicate 40 97),
     (indexPath, str "100644 a.txt" ++ [0] ++ List.replicate 20 170)]
    (str "A") (str "a@b") 5 (str "+0000") (str "x") (List.replicate 40 97)
    [(str "a.txt", List.replicate 40 97)]
    (str "100644 a.txt" ++ List.replicate 20 170)
    (by decide) (by decide) (by decide) (by decide) (by decide) (by decide)

/-- C10: with HEAD holding a direct hash (detached), a successful commit
writes the tree object and the commit object into the store and clears the
index to empty, but modifies no ref: HEAD and every path under `.git/refs/`
read back byte-for-byte unchanged, and the full commit hash is not among the
printed lines. -/
theorem c10_detached_frame (fs : FS) (name email : Bytes) (ts : Nat)
    (tz msg hd : Bytes) (entries : List (Bytes × Bytes)) (body tH bodyC cH : Bytes)
    (hmsg : msg ≠ [])
    (hix : readIndexFile (fs.read indexPath) = some entries)
    (hne : entries ≠ [])
    (hbody : treeBodyLoop (List.insertionSort (· ≤ ·) (entries.map renderEntry)) = .ok body)
    (hhead : fs.read headPath = some hd)
    (hnp : (str "ref: ").isPrefixOf (trimSpace hd) = false)
    (htH : tH = sha1Hex (treeFrame body))
    (hbodyC : bodyC = commitBody tH [] name email ts tz msg)
    (hcH : cH = sha1Hex (commitFrame bodyC))
    (hneq : cH ≠ tH) :
    ∃ r, commitCmd fs name email ts tz msg = CommitOut.ok r ∧
      r.treeHash = tH ∧ r.commitHash = cH ∧
      r.fs.read (objPath tH) = some (treeFrame body) ∧
      r.fs.read (objPath cH) = some (commitFrame bodyC) ∧
      r.fs.read indexPath = some [] ∧
      r.fs.read headPath = fs.read headPath ∧
      (∀ q, (str ".git/refs/").isPrefixOf q = true → r.fs.read q = fs.read q) ∧
      cH ∉ r.printed := by
  have hPne : objPath cH ≠ objPath tH := by
    intro he
    exact hneq (objPath_inj cH tH (by rw [hcH, htH, sha1Hex_length, sha1Hex_length]) he)
  refine ⟨_, commitCmd_detached fs name email ts tz msg hd entries body tH bodyC cH
      hmsg hix hne hbody hhead hnp htH hbodyC hcH, rfl, rfl, ?_, ?_, ?_, ?_, ?_, ?_⟩
  · show (((fs.write (objPath tH) (treeFrame body)).write (objPath cH)
        (commitFrame bodyC)).write indexPath []).read (objPath tH) = some (treeFrame body)
    rw [FS.read_write_ne _ _ _ _ (Ne.symm (objPath_ne_indexPath tH)),
      FS.read_write_ne _ _ _ _ hPne, FS.read_write_same]
  · show (((fs.write (objPath tH) (treeFrame body)).write (objPath cH)
        (commitFrame bodyC)).write indexPath []).read (objPath cH) = some (commitFrame bodyC)
    rw [FS.read_write_ne _ _ _ _ (Ne.symm (objPath_ne_indexPath cH)),
      FS.read_write_same]
  · exact FS.read_write_same _ _ _
  · show (((fs.write (objPath tH) (treeFrame body)).write (objPath cH)
        (commitFrame bodyC)).write indexPath []).read headPath = fs.read headPath
    rw [FS.read_write_ne _ _ _ _ indexPath_ne_headPath,
      FS.read_write_ne _ _ _ _ (objPath_ne_headPath cH),
      FS.read_write_ne _ _ _ _ (objPath_ne_headPath tH)]
  · intro q hq
    obtain ⟨hnoT, hni, _⟩ := refs_pre_ne q tH hq
    obtain ⟨hnoC, _, _⟩ := refs_pre_ne q cH hq
    show (((fs.write (objPath tH) (treeFrame body)).write (objPath cH)
        (commitFrame bodyC)).write indexPath []).read q = fs.read q
    rw [FS.read_write_ne _ _ _ _ hni, FS.read_write_ne _ _ _ _ hnoC,
      FS.read_write_ne _ _ _ _ hnoT]
  · intro hmem
    simp only [List.mem_cons, List.not_mem_nil, or_false] at hmem
    rcases hmem with he | he
    · have h91 : (91 : Nat) ∈ cH := by
        rw [he]
        simp
      have := sha1Hex_lower (commitFrame bodyC) 91 (hcH ▸ h91)
      exact absurd this (by decide)
    · have h40 : (40 : Nat) ∈ cH := by
        rw [he]
        refine List.mem_append.mpr (Or.inr ?_)
        decide
      have := sha1Hex_lower (commitFrame bodyC) 40 (hcH ▸ h40)
      exact absurd this (by decide)

/-- C10 witness: the concrete detached run (HEAD is forty `a` characters,
one staged file) evaluated end to end. -/
theorem c10_detached_frame_witness :
    ∃ r, commitCmd
        [(headPath, List.replicate 40 97),
         (indexPath, str "100644 a.txt" ++ [0] ++ List.replicate 20 170)]
        (str "A") (str "a@b") 5 (str "+0000") (str "x") = CommitOut.ok r ∧
      r.treeHash = sha1Hex (treeFrame (str "100644 a.txt" ++ List.replicate 20 170)) ∧
      r.commitHash = sha1Hex (commitFrame (commitBody
        (sha1Hex (treeFrame (str "100644 a.txt" ++ List.replicate 20 170)))
        [] (str "A") (str "a@b") 5 (str "+0000") (str "x"))) ∧
      r.fs.read (objPath (sha1Hex (treeFrame (str "100644 a.txt" ++ List.replicate 20 170))))
        = some (treeFrame (str "100644 a.txt" ++ List.replicate 20 170)) ∧
      r.fs.read (objPath (sha1Hex (commitFrame (commitBody
          (sha1Hex (treeFrame (str "100644 a.txt" ++ List.replicate 20 170)))
          [] (str "A") (str "a@b") 5 (str "+0000") (str "x")))))
        = some (commitFrame (commitBody
          (sha1Hex (treeFrame (str "100644 a.txt" ++ List.replicate 20 170)))
          [] (str "A") (str "a@b") 5 (str "+0000") (str "x"))) ∧
      r.fs.read indexPath = some [] ∧
      r.fs.read headPath
        = FS.read [(headPath, List.replicate 40 97),
            (indexPath, str "100644 a.txt" ++ [0] ++ List.replicate 20 170)] headPath ∧
      (∀ q, (str ".git/refs/").isPrefixOf q = true →
        r.fs.read q
          = FS.read [(headPath, List.replicate 40 97),
              (indexPath, str "100644 a.txt" ++ [0] ++ List.replicate 20 170)] q) ∧
      sha1Hex (commitFrame (commitBody
        (sha1Hex (treeFrame (str "100644 a.txt" ++ List.replicate 20 170)))
        [] (str "A") (str "a@b") 5 (str "+0000") (str "x"))) ∉ r.printed :=
  c10_detached_frame
    [(headPath, List.replicate 40 97),
     (indexPath, str "100644 a.txt" ++ [0] ++ List.replicate 20 170)]
    (str "A") (str "a@b") 5 (str "+0000") (str "x") (List.replicate 40 97)
    [(str "a.txt", List.replicate 40 97)]
    (str "100644 a.txt" ++ List.replicate 20 170)
    (sha1Hex (treeFrame (str "100644 a.txt" ++ List.replicate 20 170)))
    (commitBody (sha1Hex (treeFrame (str "100644 a.txt" ++ List.replicate 20 170)))
      [] (str "A") (str "a@b") 5 (str "+0000") (str "x"))
    (sha1Hex (commitFrame (commitBody
      (sha1Hex (treeFrame (str "100644 a.txt" ++ List.replicate 20 170)))
      [] (str "A") (str "a@b") 5 (str "+0000") (str "x"))))
    (by decide) (by decide) (by decide) (by decide) (by decide) (by decide)
    rfl rfl rfl (by decide)

theorem headPath_ne_refsHeads (b : Bytes) :
    headPath ≠ str ".git/refs/heads/" ++ b := by
  intro he
  have h6 := congrArg (List.take 6) he
  rw [take6_refsHeads] at h6
  exact absurd h6 (by decide)

theorem findIdx?_found (p : Nat → Bool) : ∀ (l : Bytes) (i k : Nat),
    List.findIdx? p l i = some k →
    i ≤ k ∧ ∃ a, l.get? (k - i) = some a ∧ p a = true := by
  intro l
  induction l with
  | nil => intro i k h; simp [List.findIdx?] at h
  | cons a t ih =>
    intro i k h
    rw [List.findIdx?_cons] at h
    by_cases ha : p a
    · rw [if_pos ha] at h
      obtain rfl : i = k := Option.some.inj h
      exact ⟨le_rfl, a, by simp, ha⟩
    · rw [if_neg ha] at h
      obtain ⟨hik, b, hb, hpb⟩ := ih (i + 1) k h
      refine ⟨by omega, b, ?_, hpb⟩
      have : k - i = (k - (i + 1)) + 1 := by omega
      rw [this]
      simpa using hb

theorem parseTreeLoop_entries_zero (fuel : Nat) : ∀ content es,
    parseTreeLoop fuel content = some es → ∀ e ∈ es, (0 : Nat) ∈ e := by
  induction fuel with
  | zero =>
    intro content es h e he
    rw [parseTreeLoop] at h
    obtain rfl : ([] : List Bytes) = es := Option.some.inj h
    simp at he
  | succ f ih =>
    intro content es h e he
    rw [parseTreeLoop] at h
    by_cases hc : content = []
    · rw [if_pos hc] at h
      obtain rfl : ([] : List Bytes) = es := Option.some.inj h
      simp at he
    · rw [if_neg hc] at h
      cases hfi : content.findIdx? (· == 0) with
      | none =>
        simp only [hfi] at h
        obtain rfl : ([] : List Bytes) = es := Option.some.inj h
        simp at he
      | some k =>
        simp only [hfi] at h
        by_cases hlen : content.length < k + 21
        · rw [if_pos hlen] at h
          exact absurd h (by simp)
        · rw [if_neg hlen] at h
          cases hrec : parseTreeLoop f (content.drop (k + 21)) with
          | none =>
            simp only [hrec] at h
            exact absurd h (by simp)
          | some es' =>
            simp only [hrec] at h
            obtain rfl : content.take (k + 21) :: es' = es := Option.some.inj h
            rcases List.mem_cons.mp he with he | he
            · obtain ⟨-, a, hget, hpa⟩ := findIdx?_found _ content 0 k hfi
              simp only [Nat.sub_zero] at hget
              obtain rfl : a = 0 := by simpa using hpa
              have hget' : (content.take (k + 21)).get? k = some 0 := by
                rw [List.get?_take (by omega)]
                exact hget
              rw [he]
              exact List.get?_mem hget'
            · exact ih _ _ hrec e he

theorem findIdx?_mem_zero (e : Bytes) (h0 : (0 : Nat) ∈ e) :
    ∀ i, ∃ k, List.findIdx? (· == 0) e i = some k := by
  induction e with
  | nil => simp at h0
  | cons a t ih =>
    intro i
    rw [List.findIdx?_cons]
    by_cases ha : a = 0
    · subst ha
      simp
    · rw [if_neg (by simp [ha])]
      rcases List.mem_cons.mp h0 with h | h
      · exact absurd h.symm ha
      · obtain ⟨k, hk⟩ := ih h (i + 1)
        exact ⟨k, hk⟩

theorem treeMapLoop_some : ∀ (es : List Bytes), (∀ e ∈ es, (0 : Nat) ∈ e) →
    ∀ m, ∃ pm, treeMapLoop es m = some pm
  | [], _, m => ⟨m, rfl⟩
  | e :: rest, h, m => by
    obtain ⟨k, hk⟩ := findIdx?_mem_zero e (h e (by simp)) 0
    have hsplit : splitAtZero e = some (e.take k, e.drop (k + 1)) := by
      unfold splitAtZero
      rw [hk]
    have hrest : ∀ x ∈ rest, (0 : Nat) ∈ x := fun x hx => h x (by simp [hx])
    simp only [treeMapLoop, hsplit, Option.getD_some]
    cases hsp : splitAtSpace (e.take k) with
    | none =>
      simp only [hsp]
      exact treeMapLoop_some rest hrest m
    | some pr =>
      simp only [hsp]
      exact treeMapLoop_some rest hrest _

theorem treeFrame_split (body : Bytes) :
    treeFrame body = (str "tree " ++ natDec body.length) ++ 0 :: body := by
  simp [treeFrame]

theorem treeFrame_hdr_nonzero (body : Bytes) :
    ∀ c ∈ str "tree " ++ natDec body.length, c ≠ 0 := by
  intro c hc
  rcases List.mem_append.mp hc with hc | hc
  · exact fun h0 => by
      revert hc
      rw [h0]
      decide
  · have := natDec_digits body.length c hc
    omega

theorem readTreeEntries_treeFrame (body tH : Bytes) (fs : FS)
    (htH : tH = sha1Hex (treeFrame body))
    (hr : fs.read (objPath tH) = some (treeFrame body)) :
    readTreeEntries tH fs = parseTreeLoop body.length body := by
  have hne : ¬ (tH = []) := htH ▸ sha1Hex_ne_nil (treeFrame body)
  have hlen : ¬ (tH.length < 2) := by
    rw [htH, sha1Hex_length]
    omega
  have hfind : List.findIdx? (fun x => x == 0) (treeFrame body)
      = some (str "tree " ++ natDec body.length).length := by
    rw [treeFrame_split]
    have h0 := findIdx?_zero_append (str "tree " ++ natDec body.length) body 0
      (treeFrame_hdr_nonzero body)
    simpa using h0
  have hdrop : (treeFrame body).drop ((str "tree " ++ natDec body.length).length + 1)
      = body := by
    rw [treeFrame_split,
      show (str "tree " ++ natDec body.length).length + 1
        = ((str "tree " ++ natDec body.length) ++ [0]).length by
        simp [Nat.add_assoc],
      show (str "tree " ++ natDec body.length) ++ 0 :: body
        = ((str "tree " ++ natDec body.length) ++ [0]) ++ body by simp,
      List.drop_left]
  unfold readTreeEntries
  rw [if_neg hne, if_neg hlen]
  simp only [hr, hfind, hdrop]

theorem extract_commit_prefix (crest : Bytes) :
    extractTreeHashFromCommit (str "commit " ++ crest) = [] := by
  unfold extractTreeHashFromCommit
  have h1 : (str "commit " ++ crest).takeWhile (· != 10)
      = 99 :: ((str "ommit " ++ crest).takeWhile (· != 10)) := by
    show ((99 : Nat) :: (str "ommit " ++ crest)).takeWhile (· != 10) = _
    rw [List.takeWhile_cons]
    rw [show ((99 : Nat) != 10) = true from rfl]
    simp only [if_true]
  have h2 : (str "tree ").isPrefixOf
      (99 :: ((str "ommit " ++ crest).takeWhile (· != 10))) = false := by
    rw [show str "tree " = 116 :: str "ree " from by decide]
    simp [List.isPrefixOf]
  simp only [h1, h2, Bool.false_eq_true, if_false]

/-- Characterization of a clean symbolic-head ROOT commit run: HEAD points
at `refs/heads/<b>`, the branch ref file does not exist yet, so the commit
has no parent; the ref file is created with the commit hash plus newline,
the hash is printed, and the index is cleared. -/
theorem commitCmd_symbolic_root (fs : FS) (name email : Bytes) (ts : Nat)
    (tz msg b : Bytes) (entries : List (Bytes × Bytes)) (body tH bodyC cH : Bytes)
    (hmsg : msg ≠ [])
    (hix : readIndexFile (fs.read indexPath) = some entries)
    (hne : entries ≠ [])
    (hbody : treeBodyLoop (List.insertionSort (· ≤ ·) (entries.map renderEntry)) = .ok body)
    (hhead : fs.read headPath = some (str "ref: refs/heads/" ++ b ++ [10]))
    (hb : b ≠ []) (hbs : ∀ c ∈ b, isSpaceByte c = false)
    (href : fs.read (str ".git/refs/heads/" ++ b) = none)
    (htH : tH = sha1Hex (treeFrame body))
    (hbodyC : bodyC = commitBody tH [] name email ts tz msg)
    (hcH : cH = sha1Hex (commitFrame bodyC)) :
    commitCmd fs name email ts tz msg = .ok {
      commitHash := cH, body := bodyC, treeHash := tH, parentHash := [],
      printed := [[91] ++ b ++ [32] ++ cH.take 7 ++ str "] " ++ msg,
                  natDec entries.length ++ str " insertions(+)", cH],
      fs := (((fs.write (objPath tH) (treeFrame body)).write (objPath cH)
               (commitFrame bodyC)).write (str ".git/refs/heads/" ++ b)
               (cH ++ [10])).write indexPath [] } := by
  have hwt : writeTreeFromIndex entries fs
      = .ok (tH, fs.write (objPath tH) (treeFrame body)) := by
    rw [htH]
    simp only [writeTreeFromIndex, hbody]
  have hbc : commitBody tH [] name email ts tz msg = bodyC := hbodyC.symm
  have hch : sha1Hex (commitFrame bodyC) = cH := hcH.symm
  have hr1 : (fs.write (objPath tH) (treeFrame body)).read headPath
      = some (str "ref: refs/heads/" ++ b ++ [10]) := by
    rw [FS.read_write_ne _ _ _ _ (objPath_ne_headPath _)]
    exact hhead
  have hr2 : ((fs.write (objPath tH) (treeFrame body)).write
      (objPath cH) (commitFrame bodyC)).read headPath
      = some (str "ref: refs/heads/" ++ b ++ [10]) := by
    rw [FS.read_write_ne _ _ _ _ (objPath_ne_headPath _)]
    exact hr1
  have htrim : trimSpace (str "ref: refs/heads/" ++ b ++ [10])
      = str "ref: refs/heads/" ++ b := trim_head_main b hb hbs
  have hpre : (str "ref: ").isPrefixOf (str "ref: refs/heads/" ++ b) = true :=
    prefix_ref_head b
  have hpre16 : (str "ref: refs/heads/").isPrefixOf (str "ref: refs/heads/" ++ b)
      = true := prefix_ref_heads_head b
  have hrefp : trimSpace ((str "ref: refs/heads/" ++ b).drop 4)
      = str "refs/heads/" ++ b := trim_refPath b hbs
  have hcat : str ".git/" ++ (str "refs/heads/" ++ b) = str ".git/refs/heads/" ++ b := by
    rw [← List.append_assoc]
    rw [show str ".git/" ++ str "refs/heads/" = str ".git/refs/heads/" from by decide]
  have hrref1 : (fs.write (objPath tH) (treeFrame body)).read
      (str ".git/refs/heads/" ++ b) = none := by
    rw [FS.read_write_ne _ _ _ _ (objPath_ne_refsHeads _ _)]
    exact href
  have hdrop16 : (str "ref: refs/heads/" ++ b).drop 16 = b := drop16_head b
  have hsne : natDec entries.length ++ str " insertions(+)" ≠ [] := by
    simp [natDec_ne_nil]
  simp only [commitCmd, if_neg hmsg, hix, if_neg hne, hwt, hbc, hch, hr1, hr2,
    htrim, hpre, hpre16, hrefp, hcat, hrref1, hdrop16, if_true,
    writeIndexBytes, List.nil_append, List.append_nil,
    if_pos hsne, reduceIte, List.singleton_append, List.cons_append]

/-- Characterization of a clean symbolic-head CHAINED commit run: the branch
ref file already holds a parent commit hash, which becomes the new commit's
parent; the ref file is overwritten with the new hash plus newline and the
index is cleared. -/
theorem commitCmd_symbolic_chained (fs : FS) (name email : Bytes) (ts : Nat)
    (tz msg b p crest : Bytes) (entries : List (Bytes × Bytes))
    (body tH bodyC cH : Bytes) (scan : List Bytes)
    (hmsg : msg ≠ [])
    (hix : readIndexFile (fs.read indexPath) = some entries)
    (hne : entries ≠ [])
    (hbody : treeBodyLoop (List.insertionSort (· ≤ ·) (entries.map renderEntry)) = .ok body)
    (hhead : fs.read headPath = some (str "ref: refs/heads/" ++ b ++ [10]))
    (hb : b ≠ []) (hbs : ∀ c ∈ b, isSpaceByte c = false)
    (href : fs.read (str ".git/refs/heads/" ++ b) = some (p ++ [10]))
    (hp : p ≠ []) (hps : ∀ c ∈ p, isSpaceByte c = false) (hpl : 2 ≤ p.length)
    (hpc : fs.read (objPath p) = some (str "commit " ++ crest))
    (htH : tH = sha1Hex (treeFrame body))
    (hbodyC : bodyC = commitBody tH p name email ts tz msg)
    (hcH : cH = sha1Hex (commitFrame bodyC))
    (hTp : objPath tH ≠ objPath p)
    (hCp : objPath cH ≠ objPath p)
    (hCT : objPath cH ≠ objPath tH)
    (hscan : parseTreeLoop body.length body = some scan) :
    ∃ ins del, commitCmd fs name email ts tz msg = .ok {
      commitHash := cH, body := bodyC, treeHash := tH, parentHash := p,
      printed := [[91] ++ b ++ [32] ++ cH.take 7 ++ str "] " ++ msg,
                  natDec ins ++ str " insertions(+), " ++ natDec del
                    ++ str " deletions(-)", cH],
      fs := (((fs.write (objPath tH) (treeFrame body)).write (objPath cH)
               (commitFrame bodyC)).write (str ".git/refs/heads/" ++ b)
               (cH ++ [10])).write indexPath [] } := by
  have hwt : writeTreeFromIndex entries fs
      = .ok (tH, fs.write (objPath tH) (treeFrame body)) := by
    rw [htH]
    simp only [writeTreeFromIndex, hbody]
  have hbc : commitBody tH p name email ts tz msg = bodyC := hbodyC.symm
  have hch : sha1Hex (commitFrame bodyC) = cH := hcH.symm
  have hr1 : (fs.write (objPath tH) (treeFrame body)).read headPath
      = some (str "ref: refs/heads/" ++ b ++ [10]) := by
    rw [FS.read_write_ne _ _ _ _ (objPath_ne_headPath _)]
    exact hhead
  have hr2 : ((fs.write (objPath tH) (treeFrame body)).write
      (objPath cH) (commitFrame bodyC)).read headPath
      = some (str "ref: refs/heads/" ++ b ++ [10]) := by
    rw [FS.read_write_ne _ _ _ _ (objPath_ne_headPath _)]
    exact hr1
  have htrim : trimSpace (str "ref: refs/heads/" ++ b ++ [10])
      = str "ref: refs/heads/" ++ b := trim_head_main b hb hbs
  have hpre : (str "ref: ").isPrefixOf (str "ref: refs/heads/" ++ b) = true :=
    prefix_ref_head b
  have hpre16 : (str "ref: refs/heads/").isPrefixOf (str "ref: refs/heads/" ++ b)
      = true := prefix_ref_heads_head b
  have hrefp : trimSpace ((str "ref: refs/heads/" ++ b).drop 4)
      = str "refs/heads/" ++ b := trim_refPath b hbs
  have hcat : str ".git/" ++ (str "refs/heads/" ++ b) = str ".git/refs/heads/" ++ b := by
    rw [← List.append_assoc]
    rw [show str ".git/" ++ str "refs/heads/" = str ".git/refs/heads/" from by decide]
  have hrref1 : (fs.write (objPath tH) (treeFrame body)).read
      (str ".git/refs/heads/" ++ b) = some (p ++ [10]) := by
    rw [FS.read_write_ne _ _ _ _ (objPath_ne_refsHeads _ _)]
    exact href
  have htrimp : trimSpace (p ++ [10]) = p := trimSpace_append_nl p hp hps
  have hdrop16 : (str "ref: refs/heads/" ++ b).drop 16 = b := drop16_head b
  have hppl : ¬ (p.length < 2) := by omega
  have hrp2 : ((fs.write (objPath tH) (treeFrame body)).write
      (objPath cH) (commitFrame bodyC)).read (objPath p)
      = some (str "commit " ++ crest) := by
    rw [read_write2_ne _ _ _ _ _ _ hTp hCp]
    exact hpc
  have hex : extractTreeHashFromCommit (str "commit " ++ crest) = [] :=
    extract_commit_prefix crest
  have hrte0 : readTreeEntries [] ((fs.write (objPath tH) (treeFrame body)).write
      (objPath cH) (commitFrame bodyC)) = some [] := rfl
  have hrtf : ((fs.write (objPath tH) (treeFrame body)).write
      (objPath cH) (commitFrame bodyC)).read (objPath tH)
      = some (treeFrame body) := by
    rw [FS.read_write_ne _ _ _ _ hCT, FS.read_write_same]
  have hrte : readTreeEntries tH ((fs.write (objPath tH) (treeFrame body)).write
      (objPath cH) (commitFrame bodyC)) = some scan := by
    rw [readTreeEntries_treeFrame body tH _ htH hrtf]
    exact hscan
  have hzero : ∀ e ∈ scan, (0 : Nat) ∈ e :=
    parseTreeLoop_entries_zero body.length body scan hscan
  obtain ⟨newPaths, hnp⟩ := treeMapLoop_some scan hzero []
  have hcmp : compareTrees [] tH ((fs.write (objPath tH) (treeFrame body)).write
      (objPath cH) (commitFrame bodyC))
      = some ((newPaths.foldl
          (fun (q : Nat × Nat) e =>
            match FS.read [] e.1 with
            | none => (q.1 + 1, q.2)
            | some oh => if oh = e.2 then q else (q.1 + 1, q.2 + 1)) (0, 0)).1,
        (newPaths.foldl
          (fun (q : Nat × Nat) e =>
            match FS.read [] e.1 with
            | none => (q.1 + 1, q.2)
            | some oh => if oh = e.2 then q else (q.1 + 1, q.2 + 1)) (0, 0)).2) := by
    simp only [compareTrees, hrte0, hrte, treeMapLoop, hnp, List.foldl_nil]
  refine ⟨(newPaths.foldl
      (fun (q : Nat × Nat) e =>
        match FS.read [] e.1 with
        | none => (q.1 + 1, q.2)
        | some oh => if oh = e.2 then q else (q.1 + 1, q.2 + 1)) (0, 0)).1,
    (newPaths.foldl
      (fun (q : Nat × Nat) e =>
        match FS.read [] e.1 with
        | none => (q.1 + 1, q.2)
        | some oh => if oh = e.2 then q else (q.1 + 1, q.2 + 1)) (0, 0)).2, ?_⟩
  have hsne : natDec (newPaths.foldl
      (fun (q : Nat × Nat) e =>
        match FS.read [] e.1 with
        | none => (q.1 + 1, q.2)
        | some oh => if oh = e.2 then q else (q.1 + 1, q.2 + 1)) (0, 0)).1
      ++ str " insertions(+), " ++ natDec (newPaths.foldl
      (fun (q : Nat × Nat) e =>
        match FS.read [] e.1 with
        | none => (q.1 + 1, q.2)
        | some oh => if oh = e.2 then q else (q.1 + 1, q.2 + 1)) (0, 0)).2
      ++ str " deletions(-)" ≠ [] := by
    simp [natDec_ne_nil]
  simp only [commitCmd, if_neg hmsg, hix, if_neg hne, hwt, hbc, hch, hr1, hr2,
    htrim, hpre, hpre16, hrefp, hcat, hrref1, htrimp, hdrop16, if_true,
    if_neg hp, if_neg hppl, hrp2, hex, hcmp,
    writeIndexBytes, List.nil_append, List.append_nil,
    if_pos hsne, reduceIte, List.singleton_append, List.cons_append]

/-- C4: with HEAD a symbolic ref `ref: refs/heads/<branch>`, a successful
root commit records no parent (its body is the parentless rendering), writes
its full hash plus a newline into the branch ref file and clears the index;
a second commit on the restaged index takes the first commit's hash as
parent — its body carries a `parent <hash1>` line — updates the ref file to
the second hash plus newline and clears the index again. -/
theorem c4_commit_chain (fs : FS) (name email : Bytes) (ts1 ts2 : Nat)
    (tz msg1 msg2 b ib2 : Bytes) (entries1 entries2 : List (Bytes × Bytes))
    (body1 body2 tH1 bodyC1 cH1 tH2 bodyC2 cH2 : Bytes) (scan2 : List Bytes)
    (hmsg1 : msg1 ≠ [])
    (hix1 : readIndexFile (fs.read indexPath) = some entries1)
    (hne1 : entries1 ≠ [])
    (hbody1 : treeBodyLoop (List.insertionSort (· ≤ ·) (entries1.map renderEntry)) = .ok body1)
    (hhead : fs.read headPath = some (str "ref: refs/heads/" ++ b ++ [10]))
    (hb : b ≠ []) (hbs : ∀ c ∈ b, isSpaceByte c = false)
    (href : fs.read (str ".git/refs/heads/" ++ b) = none)
    (htH1 : tH1 = sha1Hex (treeFrame body1))
    (hbodyC1 : bodyC1 = commitBody tH1 [] name email ts1 tz msg1)
    (hcH1 : cH1 = sha1Hex (commitFrame bodyC1))
    (hmsg2 : msg2 ≠ [])
    (hix2 : readIndexFile (some ib2) = some entries2)
    (hne2 : entries2 ≠ [])
    (hbody2 : treeBodyLoop (List.insertionSort (· ≤ ·) (entries2.map renderEntry)) = .ok body2)
    (htH2 : tH2 = sha1Hex (treeFrame body2))
    (hbodyC2 : bodyC2 = commitBody tH2 cH1 name email ts2 tz msg2)
    (hcH2 : cH2 = sha1Hex (commitFrame bodyC2))
    (hne_t2c1 : tH2 ≠ cH1) (hne_c2c1 : cH2 ≠ cH1) (hne_c2t2 : cH2 ≠ tH2)
    (hscan2 : parseTreeLoop body2.length body2 = some scan2) :
    ∃ r1, commitCmd fs name email ts1 tz msg1 = CommitOut.ok r1 ∧
      r1.commitHash = cH1 ∧
      r1.parentHash = [] ∧
      r1.body = commitBody r1.treeHash [] name email ts1 tz msg1 ∧
      r1.fs.read (str ".git/refs/heads/" ++ b) = some (cH1 ++ [10]) ∧
      r1.fs.read indexPath = some [] ∧
      ∃ r2, commitCmd (r1.fs.write indexPath ib2) name email ts2 tz msg2
          = CommitOut.ok r2 ∧
        r2.parentHash = cH1 ∧
        (∃ u v, r2.body = u ++ (str "parent " ++ cH1 ++ [10]) ++ v) ∧
        r2.fs.read (str ".git/refs/heads/" ++ b) = some (r2.commitHash ++ [10]) ∧
        r2.fs.read indexPath = some [] := by
  refine ⟨_, commitCmd_symbolic_root fs name email ts1 tz msg1 b entries1 body1
      tH1 bodyC1 cH1 hmsg1 hix1 hne1 hbody1 hhead hb hbs href htH1 hbodyC1 hcH1,
    rfl, rfl, hbodyC1, ?_, ?_, ?_⟩
  · show ((((fs.write (objPath tH1) (treeFrame body1)).write (objPath cH1)
        (commitFrame bodyC1)).write (str ".git/refs/heads/" ++ b)
        (cH1 ++ [10])).write indexPath []).read (str ".git/refs/heads/" ++ b)
      = some (cH1 ++ [10])
    rw [FS.read_write_ne _ _ _ _ (indexPath_ne_refsHeads b), FS.read_write_same]
  · exact FS.read_write_same _ _ _
  · show ∃ r2, commitCmd (((((fs.write (objPath tH1) (treeFrame body1)).write
        (objPath cH1) (commitFrame bodyC1)).write (str ".git/refs/heads/" ++ b)
        (cH1 ++ [10])).write indexPath []).write indexPath ib2)
        name email ts2 tz msg2 = CommitOut.ok r2 ∧ _
    have hix2' : readIndexFile ((((((fs.write (objPath tH1) (treeFrame body1)).write
        (objPath cH1) (commitFrame bodyC1)).write (str ".git/refs/heads/" ++ b)
        (cH1 ++ [10])).write indexPath []).write indexPath ib2).read indexPath)
        = some entries2 := by
      rw [FS.read_write_same]
      exact hix2
    have hhead2 : (((((fs.write (objPath tH1) (treeFrame body1)).write
        (objPath cH1) (commitFrame bodyC1)).write (str ".git/refs/heads/" ++ b)
        (cH1 ++ [10])).write indexPath []).write indexPath ib2).read headPath
        = some (str "ref: refs/heads/" ++ b ++ [10]) := by
      rw [FS.read_write_ne _ _ _ _ indexPath_ne_headPath,
        FS.read_write_ne _ _ _ _ indexPath_ne_headPath,
        FS.read_write_ne _ _ _ _ (Ne.symm (headPath_ne_refsHeads b)),
        FS.read_write_ne _ _ _ _ (objPath_ne_headPath cH1),
        FS.read_write_ne _ _ _ _ (objPath_ne_headPath tH1)]
      exact hhead
    have href2 : (((((fs.write (objPath tH1) (treeFrame body1)).write
        (objPath cH1) (commitFrame bodyC1)).write (str ".git/refs/heads/" ++ b)
        (cH1 ++ [10])).write indexPath []).write indexPath ib2).read
        (str ".git/refs/heads/" ++ b) = some (cH1 ++ [10]) := by
      rw [FS.read_write_ne _ _ _ _ (indexPath_ne_refsHeads b),
        FS.read_write_ne _ _ _ _ (indexPath_ne_refsHeads b),
        FS.read_write_same]
    have hp2 : cH1 ≠ [] := by
      rw [hcH1]
      exact sha1Hex_ne_nil _
    have hps2 : ∀ c ∈ cH1, isSpaceByte c = false := fun c hc =>
      lowerHex_not_space c (sha1Hex_lower (commitFrame bodyC1) c (hcH1 ▸ hc))
    have hpl2 : 2 ≤ cH1.length := by
      rw [hcH1, sha1Hex_length]
      omega
    have hframe : commitFrame bodyC1
        = str "commit " ++ (natDec bodyC1.length ++ [0] ++ bodyC1) := by
      simp [commitFrame]
    have hpc2 : (((((fs.write (objPath tH1) (treeFrame body1)).write
        (objPath cH1) (commitFrame bodyC1)).write (str ".git/refs/heads/" ++ b)
        (cH1 ++ [10])).write indexPath []).write indexPath ib2).read (objPath cH1)
        = some (str "commit " ++ (natDec bodyC1.length ++ [0] ++ bodyC1)) := by
      rw [FS.read_write_ne _ _ _ _ (Ne.symm (objPath_ne_indexPath cH1)),
        FS.read_write_ne _ _ _ _ (Ne.symm (objPath_ne_indexPath cH1)),
        FS.read_write_ne _ _ _ _ (Ne.symm (objPath_ne_refsHeads cH1 b)),
        FS.read_write_same, hframe]
    have hTp2 : objPath tH2 ≠ objPath cH1 := fun he =>
      hne_t2c1 (objPath_inj tH2 cH1
        (by rw [htH2, hcH1, sha1Hex_length, sha1Hex_length]) he)
    have hCp2 : objPath cH2 ≠ objPath cH1 := fun he =>
      hne_c2c1 (objPath_inj cH2 cH1
        (by rw [hcH2, hcH1, sha1Hex_length, sha1Hex_length]) he)
    have hCT2 : objPath cH2 ≠ objPath tH2 := fun he =>
      hne_c2t2 (objPath_inj cH2 tH2
        (by rw [hcH2, htH2, sha1Hex_length, sha1Hex_length]) he)
    obtain ⟨ins, del, hchain⟩ := commitCmd_symbolic_chained
      ((((fs.write (objPath tH1) (treeFrame body1)).write (objPath cH1)
        (commitFrame bodyC1)).write (str ".git/refs/heads/" ++ b)
        (cH1 ++ [10])).write indexPath [] |>.write indexPath ib2)
      name email ts2 tz msg2 b cH1 (natDec bodyC1.length ++ [0] ++ bodyC1)
      entries2 body2 tH2 bodyC2 cH2 scan2
      hmsg2 hix2' hne2 hbody2 hhead2 hb hbs href2 hp2 hps2 hpl2 hpc2
      htH2 hbodyC2 hcH2 hTp2 hCp2 hCT2 hscan2
    refine ⟨_, hchain, rfl, ?_, ?_, ?_⟩
    · refine ⟨str "tree " ++ tH2 ++ [10],
        str "author " ++ name ++ str " <" ++ email ++ str "> " ++ natDec ts2
          ++ [32] ++ tz ++ [10] ++ str "committer " ++ name ++ str " <"
          ++ email ++ str "> " ++ natDec ts2 ++ [32] ++ tz ++ [10] ++ [10] ++ msg2, ?_⟩
      show bodyC2 = _
      rw [hbodyC2]
      simp [commitBody, hp2]
    · show (((((((((fs.write (objPath tH1) (treeFrame body1)).write (objPath cH1)
          (commitFrame bodyC1)).write (str ".git/refs/heads/" ++ b)
          (cH1 ++ [10])).write indexPath []).write indexPath ib2).write
          (objPath tH2) (treeFrame body2)).write (objPath cH2)
          (commitFrame bodyC2)).write (str ".git/refs/heads/" ++ b)
          (cH2 ++ [10])).write indexPath []).read (str ".git/refs/heads/" ++ b)
        = some (cH2 ++ [10])
      rw [FS.read_write_ne _ _ _ _ (indexPath_ne_refsHeads b), FS.read_write_same]
    · exact FS.read_write_same _ _ _

/-- C4 witness: a concrete two-commit run on branch `main` with one staged
file, evaluated end to end. -/
theorem c4_commit_chain_witness :
    ∃ r1, commitCmd
        [(headPath, str "ref: refs/heads/main" ++ [10]),
         (indexPath, str "100644 a.txt" ++ [0] ++ List.replicate 20 170)]
        (str "A") (str "a@b") 0 (str "+0000") (str "x") = CommitOut.ok r1 ∧
      r1.commitHash = sha1Hex (commitFrame (commitBody
          (sha1Hex (treeFrame (str "100644 a.txt" ++ List.replicate 20 170)))
          [] (str "A") (str "a@b") 0 (str "+0000") (str "x"))) ∧
      r1.parentHash = [] ∧
      r1.body = commitBody r1.treeHash [] (str "A") (str "a@b") 0 (str "+0000") (str "x") ∧
      r1.fs.read (str ".git/refs/heads/" ++ str "main")
        = some (sha1Hex (commitFrame (commitBody
            (sha1Hex (treeFrame (str "100644 a.txt" ++ List.replicate 20 170)))
            [] (str "A") (str "a@b") 0 (str "+0000") (str "x"))) ++ [10]) ∧
      r1.fs.read indexPath = some [] ∧
      ∃ r2, commitCmd
          (r1.fs.write indexPath (str "100644 a.txt" ++ [0] ++ List.replicate 20 170))
          (str "A") (str "a@b") 1 (str "+0000") (str "y") = CommitOut.ok r2 ∧
        r2.parentHash = sha1Hex (commitFrame (commitBody
            (sha1Hex (treeFrame (str "100644 a.txt" ++ List.replicate 20 170)))
            [] (str "A") (str "a@b") 0 (str "+0000") (str "x"))) ∧
        (∃ u v, r2.body = u ++ (str "parent " ++ sha1Hex (commitFrame (commitBody
            (sha1Hex (treeFrame (str "100644 a.txt" ++ List.replicate 20 170)))
            [] (str "A") (str "a@b") 0 (str "+0000") (str "x"))) ++ [10]) ++ v) ∧
        r2.fs.read (str ".git/refs/heads/" ++ str "main")
          = some (r2.commitHash ++ [10]) ∧
        r2.fs.read indexPath = some [] :=
  c4_commit_chain
    [(headPath, str "ref: refs/heads/main" ++ [10]),
     (indexPath, str "100644 a.txt" ++ [0] ++ List.replicate 20 170)]
    (str "A") (str "a@b") 0 1 (str "+0000") (str "x") (str "y") (str "main")
    (str "100644 a.txt" ++ [0] ++ List.replicate 20 170)
    [(str "a.txt", List.replicate 40 97)] [(str "a.txt", List.replicate 40 97)]
    (str "100644 a.txt" ++ List.replicate 20 170)
    (str "100644 a.txt" ++ List.replicate 20 170)
    (sha1Hex (treeFrame (str "100644 a.txt" ++ List.replicate 20 170)))
    (commitBody (sha1Hex (treeFrame (str "100644 a.txt" ++ List.replicate 20 170)))
      [] (str "A") (str "a@b") 0 (str "+0000") (str "x"))
    (sha1Hex (commitFrame (commitBody
      (sha1Hex (treeFrame (str "100644 a.txt" ++ List.replicate 20 170)))
      [] (str "A") (str "a@b") 0 (str "+0000") (str "x"))))
    (sha1Hex (treeFrame (str "100644 a.txt" ++ List.replicate 20 170)))
    (commitBody (sha1Hex (treeFrame (str "100644 a.txt" ++ List.replicate 20 170)))
      (sha1Hex (commitFrame (commitBody
        (sha1Hex (treeFrame (str "100644 a.txt" ++ List.replicate 20 170)))
        [] (str "A") (str "a@b") 0 (str "+0000") (str "x"))))
      (str "A") (str "a@b") 1 (str "+0000") (str "y"))
    (sha1Hex (commitFrame (commitBody
      (sha1Hex (treeFrame (str "100644 a.txt" ++ List.replicate 20 170)))
      (sha1Hex (commitFrame (commitBody
        (sha1Hex (treeFrame (str "100644 a.txt" ++ List.replicate 20 170)))
        [] (str "A") (str "a@b") 0 (str "+0000") (str "x"))))
      (str "A") (str "a@b") 1 (str "+0000") (str "y"))))
    []
    (by decide) (by decide) (by decide) (by decide) (by decide) (by decide)
    (by decide) (by decide) rfl rfl rfl
    (by decide) (by decide) (by decide) (by decide) rfl rfl rfl
    (by decide) (by decide) (by decide) (by decide)
